import Mathlib

/-!
Verification of the OpenSCAD-Bench parallel execution pipeline.

A shallow embedding, in Lean 4, of the parts of the repository that the
specification's claims are about:

* `src/renderer.py` — `render_stl` and the `RenderResult` record;
* `src/openrouter.py` — `_handle_http_error`, the SSE stream accumulation of
  `send_prompt_streaming`, the reconstruction of the response object, and
  `extract_code`;
* `src/parallel.py` — `ModelStatus`, the worker `_run_single_model` and the
  driver `run_models_parallel`, modelled as atomic lock-protected steps
  applied to the shared status collection.

External effects (the subprocess, the HTTP transport, `json.loads`, wall-clock
time) enter the embedding as explicit parameters describing their outcome, so
every function of the embedding is executable.
-/

namespace OpenSCADBench

/-! ## A model of decoded JSON values (what Python's `response.json()` and
`json.loads` return), with Python truthiness and `str()` rendering. -/

/-- A decoded JSON value, as produced by Python's `json` module: object keys
are strings, numbers are modelled as integers (fractional values play no role
in any field the code reads). -/
inductive Json where
  | null : Json
  | bool (b : Bool) : Json
  | num (n : Int) : Json
  | str (s : String) : Json
  | arr (xs : List Json) : Json
  | obj (fields : List (String × Json)) : Json
  deriving Repr

/-- Python truthiness of a decoded JSON value (`if x:`). -/
def Json.truthy : Json → Bool
  | .null => false
  | .bool b => b
  | .num n => n ≠ 0
  | .str s => s ≠ ""
  | .arr xs => ¬ xs.isEmpty
  | .obj fs => ¬ fs.isEmpty

/-- Dictionary lookup, `d.get(k)` on a decoded JSON object's field list:
first binding wins (decoded JSON objects have unique keys). -/
def jsonGet : List (String × Json) → String → Option Json
  | [], _ => none
  | (k, v) :: rest, key => if k = key then some v else jsonGet rest key

mutual

/-- Python `repr()` of a decoded JSON value (used inside container rendering). -/
def pyRepr : Json → String
  | .null => "None"
  | .bool true => "True"
  | .bool false => "False"
  | .num n => toString n
  | .str s => "'" ++ s ++ "'"
  | .arr xs => "[" ++ pyReprList xs ++ "]"
  | .obj fs => "\x7b" ++ pyReprFields fs ++ "\x7d"

/-- `repr()` of a list's elements, comma separated. -/
def pyReprList : List Json → String
  | [] => ""
  | [x] => pyRepr x
  | x :: xs => pyRepr x ++ ", " ++ pyReprList xs

/-- `repr()` of a dict's items, comma separated. -/
def pyReprFields : List (String × Json) → String
  | [] => ""
  | [(k, v)] => "'" ++ k ++ "': " ++ pyRepr v
  | (k, v) :: fs => "'" ++ k ++ "': " ++ pyRepr v ++ ", " ++ pyReprFields fs

end

/-- Python `str()` of a decoded JSON value, as used by f-string interpolation:
identity on strings, `repr` style on containers. -/
def pyStr : Json → String
  | .str s => s
  | v => pyRepr v

/-! ## Renderer (`src/renderer.py`) -/

/-- The outcome of the `subprocess.run` invocation inside `render_stl`,
together with whether the expected `.stl` artifact exists on disk after the
subprocess finished.  `fileNotFound` is the `FileNotFoundError` branch
(missing executable); `timeoutExpired` is the `subprocess.TimeoutExpired`
branch. -/
inductive SubprocessOutcome where
  | completed (returncode : Int) (stdout : String) (stderr : String)
      (stlExists : Bool) : SubprocessOutcome
  | fileNotFound : SubprocessOutcome
  | timeoutExpired : SubprocessOutcome
  deriving Repr, DecidableEq

/-- `RenderResult` from `src/renderer.py`: result of one OpenSCAD rendering
attempt. -/
structure RenderResult where
  success : Bool
  scad_path : String
  stl_path : Option String
  error_message : Option String
  render_time : Nat
  deriving Repr, DecidableEq

/-- Abstracts `scad_path.with_suffix(".stl")`: replace the extension after
the last dot (appending `.stl` when there is none).  Directory separators
are not modelled separately — no claim depends on the artifact path's exact
text, only on its presence. -/
def withSuffixStl (p : String) : String :=
  let parts := p.splitOn "."
  match parts with
  | [] => p ++ ".stl"
  | [_] => p ++ ".stl"
  | _ => String.intercalate "." (parts.dropLast) ++ ".stl"

/-- `render_stl` from `src/renderer.py`.  The subprocess outcome and the
elapsed wall-clock duration (`time.perf_counter()` difference, abstract time
units) are passed in explicitly.  `timeout` is the configured limit used in
the timeout message. -/
def render_stl (scad_path openscad_path : String) (timeout : Nat)
    (outcome : SubprocessOutcome) (elapsed : Nat) : RenderResult :=
  let stl_path := withSuffixStl scad_path
  match outcome with
  | .completed rc stdout stderr stlExists =>
    if rc = 0 ∧ stlExists then
      { success := true
        scad_path := scad_path
        stl_path := some stl_path
        error_message := none
        render_time := elapsed }
    else
      -- `stderr.strip() if stderr else stdout.strip()`, then the exit-code
      -- fallback when that is empty
      let error_msg := if stderr ≠ "" then stderr.trim else stdout.trim
      let error_msg :=
        if error_msg = "" then s!"OpenSCAD exited with code {rc}" else error_msg
      { success := false
        scad_path := scad_path
        stl_path := none
        error_message := some error_msg
        render_time := elapsed }
  | .fileNotFound =>
      { success := false
        scad_path := scad_path
        stl_path := none
        error_message := some ("OpenSCAD executable not found: " ++ openscad_path)
        render_time := elapsed }
  | .timeoutExpired =>
      { success := false
        scad_path := scad_path
        stl_path := none
        error_message := some s!"Rendering timed out after {timeout} seconds"
        render_time := elapsed }

/-! ## OpenRouter transport client (`src/openrouter.py`): error mapping -/

/-- The concrete exception class raised (`OpenRouterError` and its
subclasses from `src/openrouter.py`). -/
inductive ErrClass where
  | authentication
  | rateLimit
  | modelNotFound
  | contentFilter
  | base
  deriving Repr, DecidableEq

/-- An `OpenRouterError` value: class, constructor message, originating model
identifier and optional HTTP status code, as set by `OpenRouterError.__init__`. -/
structure ORError where
  cls : ErrClass
  message : String
  model : String
  status_code : Option Nat
  deriving Repr, DecidableEq

/-- `str(e)` for an `OpenRouterError`: the constructor prefixes the message
with the model identifier (`super().__init__(f"[..model..] ..message..")`). -/
def ORError.toStr (e : ORError) : String :=
  "[" ++ e.model ++ "] " ++ e.message

/-- The observable state of an HTTP response as read by `_handle_http_error`:
its status code, the result of `response.json()` (`none` models the
`ValueError` raised on an undecodable body) and the raw body text. -/
structure HttpResponse where
  status_code : Nat
  jsonResult : Option Json
  text : String

/-- What `_handle_http_error` does: return normally, raise an
`OpenRouterError`, or escape with an uncaught `AttributeError` (raised by
`.get` on a non-dict, which the `except (ValueError, KeyError)` clause does
not catch). -/
inductive HandlerResult where
  | ok
  | raised (e : ORError)
  | attrError
  deriving Repr, DecidableEq

/-- The `error_msg` computation in the `status_code >= 400` branch of
`_handle_http_error`:
`error_data.get("error", {}).get("message", response.text)`, with
`response.text` on a `ValueError` from `response.json()`, and an uncaught
`AttributeError` when the decoded body or its `error` field is not a dict. -/
def errorMsgOf (resp : HttpResponse) : Except Unit String :=
  match resp.jsonResult with
  | none => .ok resp.text
  | some j =>
    match j with
    | .obj fields =>
      match jsonGet fields "error" with
      | none => .ok resp.text
      | some (.obj efields) =>
        match jsonGet efields "message" with
        | none => .ok resp.text
        | some v => .ok (pyStr v)
      | some _ => .error ()
    | _ => .error ()

/-- `_handle_http_error` from `src/openrouter.py`. -/
def handle_http_error (resp : HttpResponse) (model : String) : HandlerResult :=
  if resp.status_code = 401 then
    .raised ⟨.authentication, "Invalid API key or authentication failed",
      model, some 401⟩
  else if resp.status_code = 429 then
    .raised ⟨.rateLimit, "Rate limit exceeded. Please wait before retrying.",
      model, some 429⟩
  else if resp.status_code = 404 then
    .raised ⟨.modelNotFound, "Model not found: " ++ model, model, some 404⟩
  else if resp.status_code ≥ 400 then
    match errorMsgOf resp with
    | .ok msg =>
      .raised ⟨.base, s!"API error ({resp.status_code}): {msg}", model,
        some resp.status_code⟩
    | .error _ => .attrError
  else .ok

/-! ## OpenRouter transport client: SSE stream accumulation -/

/-- The fields of a decoded data chunk that `send_prompt_streaming` reads:
`delta.content`, `delta.reasoning` of the first choice, its `finish_reason`,
and the top-level `id` and `model`.  `decode` below abstracts `json.loads`
restricted to this shape (`none` models a `json.JSONDecodeError`, which the
code skips). -/
structure Delta where
  content : Option String
  reasoning : Option String
  deriving Repr, DecidableEq

/-- One element of a chunk's `choices` list. -/
structure ChunkChoice where
  delta : Delta
  finish_reason : Option String
  deriving Repr, DecidableEq

/-- A decoded stream data chunk. -/
structure ChunkObj where
  id : Option String
  model : Option String
  choices : List ChunkChoice
  deriving Repr, DecidableEq

/-- The accumulation state of `send_prompt_streaming`'s stream loop.  The
`buffer` holds raw received characters not yet consumed as complete lines. -/
structure StreamState where
  buffer : List Char
  accumulated_content : String
  accumulated_reasoning : String
  response_id : Option String
  response_model : Option String
  finish_reason : Option String
  deriving Repr, DecidableEq

/-- The initial accumulation state. -/
def initStreamState : StreamState :=
  { buffer := []
    accumulated_content := ""
    accumulated_reasoning := ""
    response_id := none
    response_model := none
    finish_reason := none }

/-- Split the buffered characters into the complete (newline-terminated)
lines and the trailing partial line, exactly as the `while True` /
`buffer.find('\n')` loop consumes them. -/
def splitLines : List Char → List (List Char) × List Char
  | [] => ([], [])
  | c :: rest =>
    let (ls, p) := splitLines rest
    if c = '\n' then ([] :: ls, p)
    else
      match ls with
      | [] => ([], c :: p)
      | l :: ls' => ((c :: l) :: ls', p)

/-- Python `str.strip()` on a line. -/
def stripChars (l : List Char) : List Char :=
  ((l.dropWhile Char.isWhitespace).reverse.dropWhile Char.isWhitespace).reverse

/-- The characters of the SSE data-line marker `"data: "`. -/
def dataMarker : List Char := "data: ".toList

/-- The characters of the terminal sentinel payload `"[DONE]"`. -/
def doneChars : List Char := "[DONE]".toList

/-- Processing of one decoded data object (the body of the
`try: data_obj = json.loads(data) ...` block): capture `id`/`model` once,
append truthy content and reasoning deltas, record a truthy finish reason. -/
def processDataObj (st : StreamState) (obj : ChunkObj) : StreamState :=
  let st :=
    if st.response_id = none ∧ obj.id ≠ none then
      { st with response_id := obj.id } else st
  let st :=
    if st.response_model = none ∧ obj.model ≠ none then
      { st with response_model := obj.model } else st
  match obj.choices with
  | [] => st
  | choice :: _ =>
    let st :=
      match choice.delta.content with
      | some content =>
        if content ≠ "" then
          { st with accumulated_content := st.accumulated_content ++ content }
        else st
      | none => st
    let st :=
      match choice.delta.reasoning with
      | some reasoning =>
        if reasoning ≠ "" then
          { st with
            accumulated_reasoning := st.accumulated_reasoning ++ reasoning }
        else st
      | none => st
    match choice.finish_reason with
    | some fr => if fr ≠ "" then { st with finish_reason := some fr } else st
    | none => st

/-- Consume a list of complete lines: skip empties and `:`-comments, decode
`data: ` payloads, and stop (`break`) at the `[DONE]` sentinel, returning the
unconsumed lines (they stay in the buffer). -/
def processLineList (decode : List Char → Option ChunkObj)
    (st : StreamState) : List (List Char) → StreamState × List (List Char)
  | [] => (st, [])
  | raw :: rest =>
    let line := stripChars raw
    if line.isEmpty then processLineList decode st rest
    else if line.head? = some ':' then processLineList decode st rest
    else if dataMarker.isPrefixOf line then
      let data := line.drop 6
      if data = doneChars then (st, rest)
      else
        match decode (data) with
        | none => processLineList decode st rest
        | some obj => processLineList decode (processDataObj st obj) rest
    else processLineList decode st rest

/-- Re-join unconsumed lines (with their newlines) and the partial tail into
the retained buffer. -/
def rejoinLines (ls : List (List Char)) (p : List Char) : List Char :=
  (ls.map (· ++ ['\n'])).flatten ++ p

/-- Processing of one received chunk (`buffer += chunk` followed by the
line-consumption loop).  The empty chunk is skipped (`if chunk:`). -/
def processChunk (decode : List Char → Option ChunkObj)
    (st : StreamState) (chunk : List Char) : StreamState :=
  if chunk.isEmpty then st
  else
    let (lines, partialTail) := splitLines (st.buffer ++ chunk)
    let (st', leftover) := processLineList decode { st with buffer := [] } lines
    { st' with buffer := rejoinLines leftover partialTail }

/-- The whole stream loop of `send_prompt_streaming` over the received
chunks. -/
def runStream (decode : List Char → Option ChunkObj)
    (chunks : List (List Char)) : StreamState :=
  chunks.foldl (processChunk decode) initStreamState

/-- The reconstructed non-streaming-format response
(`reconstructed_response` at the end of `send_prompt_streaming`). -/
structure ReconResponse where
  id : String
  model : String
  content : String
  reasoning : Option String
  finish_reason : String
  deriving Repr, DecidableEq

/-- Python `x or y` on an optional string (falsy = absent or empty). -/
def orElseStr (x : Option String) (y : String) : String :=
  match x with
  | none => y
  | some s => if s = "" then y else s

/-- Build the reconstructed response from the final accumulation state:
`id or "stream-response"`, `model or` the requested model, the accumulated
content, the reasoning only when non-empty, and `finish_reason or "stop"`. -/
def reconstructResponse (model : String) (st : StreamState) : ReconResponse :=
  { id := orElseStr st.response_id "stream-response"
    model := orElseStr st.response_model model
    content := st.accumulated_content
    reasoning :=
      if st.accumulated_reasoning ≠ "" then some st.accumulated_reasoning
      else none
    finish_reason := orElseStr st.finish_reason "stop" }

/-- The observable outcome of the HTTP exchange performed by
`send_prompt_streaming`: a response (with its streamed chunks), a
`requests.Timeout`, or another `requests.RequestException`. -/
inductive TransportOutcome where
  | response (resp : HttpResponse) (chunks : List (List Char))
  | timeout
  | requestException (msg : String)

/-- What `send_prompt_streaming` does: return the reconstructed response,
raise an `OpenRouterError`, or escape with the uncaught `AttributeError` from
`_handle_http_error`. -/
inductive StreamCallResult where
  | ok (resp : ReconResponse)
  | err (e : ORError)
  | attrError
  deriving Repr, DecidableEq

/-- `send_prompt_streaming` from `src/openrouter.py`, over an explicit
transport outcome: HTTP errors are mapped before streaming; `requests.Timeout`
and other `requests.RequestException`s are wrapped into `OpenRouterError`s
(which themselves pass through, not being `RequestException`s). -/
def send_prompt_streaming (model : String) (timeoutCfg : Nat)
    (decode : List Char → Option ChunkObj)
    (outcome : TransportOutcome) : StreamCallResult :=
  match outcome with
  | .timeout =>
    .err ⟨.base, s!"Request timed out after {timeoutCfg} seconds", model, none⟩
  | .requestException msg =>
    .err ⟨.base, "Request failed: " ++ msg, model, none⟩
  | .response resp chunks =>
    match handle_http_error resp model with
    | .raised e => .err e
    | .attrError => .attrError
    | .ok => .ok (reconstructResponse model (runStream decode chunks))

/-! ## SSE stream: derived notions used to state the streaming claims -/

/-- The characters of the complete sentinel line `"data: [DONE]"`. -/
def doneLineChars : List Char := "data: [DONE]".toList

/-- Whether a raw complete line is the terminal sentinel data line (after
stripping): a `data: ` line whose payload is `[DONE]`. -/
def isDoneDataLine (raw : List Char) : Bool :=
  let line := stripChars raw
  dataMarker.isPrefixOf line && (line.drop 6 = doneChars : Bool)

/-- The data payload of a raw complete line, when it is a data line. -/
def linePayload (raw : List Char) : Option (List Char) :=
  let line := stripChars raw
  if dataMarker.isPrefixOf line then some (line.drop 6) else none

/-- The first choice of the decoded chunk of a data payload. -/
def lineChoice (decode : List Char → Option ChunkObj)
    (d : List Char) : Option ChunkChoice :=
  (decode d).bind (fun o => o.choices.head?)

/-- The effect on the accumulation state of consuming one complete line in a
run that never meets the sentinel.  On every line the engine can consume
without breaking this agrees with the corresponding `processLineList` step:
empty and comment lines are not `data: `-prefixed, so they fall into the
identity branch. -/
def lineStepND (decode : List Char → Option ChunkObj)
    (st : StreamState) (raw : List Char) : StreamState :=
  let line := stripChars raw
  if dataMarker.isPrefixOf line then
    match decode (line.drop 6) with
    | none => st
    | some obj => processDataObj st obj
  else st

/-- Folding the sentinel-free line consumption over a list of lines. -/
def coreFold (decode : List Char → Option ChunkObj)
    (st : StreamState) (lines : List (List Char)) : StreamState :=
  lines.foldl (lineStepND decode) st

/-- Concatenation of a list of strings, in order. -/
def strConcat : List String → String
  | [] => ""
  | s :: rest => s ++ strConcat rest

/-- The last element of a list, if any. -/
def lastElem : List String → Option String
  | [] => none
  | [x] => some x
  | _ :: (y :: rest) => lastElem (y :: rest)

/-- The content delta a decoded chunk carries (its first choice's
`delta.content`), as a string (absent deltas contribute the empty string). -/
def objContentDelta (obj : ChunkObj) : String :=
  (obj.choices.head?.bind (fun c => c.delta.content)).getD ""

/-- The reasoning delta a decoded chunk carries, as a string. -/
def objReasoningDelta (obj : ChunkObj) : String :=
  (obj.choices.head?.bind (fun c => c.delta.reasoning)).getD ""

/-- The truthy finish reason a decoded chunk carries (a present but empty
finish reason is falsy and is not recorded by the engine). -/
def objFinish (obj : ChunkObj) : Option String :=
  obj.choices.head?.bind (fun c =>
    match c.finish_reason with
    | some fr => if fr = "" then none else some fr
    | none => none)

/-- The content delta contributed by one raw line (empty when the line is
not a data line, fails to decode, or carries no content). -/
def lineContentDelta (decode : List Char → Option ChunkObj)
    (raw : List Char) : String :=
  ((linePayload raw).bind (fun d =>
    (lineChoice decode d).bind (fun c => c.delta.content))).getD ""

/-- The reasoning delta contributed by one raw line. -/
def lineReasoningDelta (decode : List Char → Option ChunkObj)
    (raw : List Char) : String :=
  ((linePayload raw).bind (fun d =>
    (lineChoice decode d).bind (fun c => c.delta.reasoning))).getD ""

/-- The truthy finish reason contributed by one raw line. -/
def lineFinish (decode : List Char → Option ChunkObj)
    (raw : List Char) : Option String :=
  (linePayload raw).bind (fun d =>
    (lineChoice decode d).bind (fun c =>
      match c.finish_reason with
      | some fr => if fr = "" then none else some fr
      | none => none))

/-- All data payloads of a stream: the payloads of the `data: ` lines among
the complete lines of the concatenated received chunks. -/
def dataPayloads (chunks : List (List Char)) : List (List Char) :=
  (splitLines chunks.flatten).1.filterMap linePayload

/-- The content deltas carried by the stream's decoded data chunks, in
order. -/
def contentDeltas (decode : List Char → Option ChunkObj)
    (chunks : List (List Char)) : List String :=
  (dataPayloads chunks).filterMap (fun d =>
    (lineChoice decode d).bind (fun c => c.delta.content))

/-- The reasoning deltas carried by the stream's decoded data chunks, in
order. -/
def reasoningDeltas (decode : List Char → Option ChunkObj)
    (chunks : List (List Char)) : List String :=
  (dataPayloads chunks).filterMap (fun d =>
    (lineChoice decode d).bind (fun c => c.delta.reasoning))

/-- The finish reasons carried by the stream's decoded data chunks, in
order. -/
def finishReasons (decode : List Char → Option ChunkObj)
    (chunks : List (List Char)) : List String :=
  (dataPayloads chunks).filterMap (fun d =>
    (lineChoice decode d).bind (fun c => c.finish_reason))

/-- A concrete decode function for examples: it abstracts `json.loads` on
three fixed data payloads (`h` carries the content delta `"Hello"`, `w`
carries `" world"` together with the finish reason `"stop"`, `x` carries
`"X"`); every other payload is undecodable. -/
def exampleDecode : List Char → Option ChunkObj := fun data =>
  if data = "h".toList then
    some ⟨some "gen-1", some "m", [⟨⟨some "Hello", none⟩, none⟩]⟩
  else if data = "w".toList then
    some ⟨none, none, [⟨⟨some " world", none⟩, some "stop"⟩]⟩
  else if data = "x".toList then
    some ⟨none, none, [⟨⟨some "X", none⟩, none⟩]⟩
  else none

/-! ## `extract_code` (`src/openrouter.py`) -/

/-- The result of Python's `x[0]` subscripting on a decoded JSON value, as it
appears inside `extract_code`'s `try` block: `caught` stands for the
`KeyError`/`IndexError`/`TypeError` exceptions caught by the
`except (KeyError, IndexError, TypeError)` clause (`KeyError` for a dict
without the integer key `0`, `IndexError` for an empty sequence, `TypeError`
for an unsubscriptable value). -/
inductive SubscriptResult where
  | ok (v : Json)
  | caught
  deriving Repr

/-- Python `x[0]` on a decoded JSON value. Indexing a non-empty string yields
its first character as a one-character string. -/
def subscriptZero : Json → SubscriptResult
  | .arr (x :: _) => .ok x
  | .arr [] => .caught
  | .str s => if s.isEmpty then .caught else .ok (.str (s.take 1))
  | .obj _ => .caught
  | .num _ => .caught
  | .bool _ => .caught
  | .null => .caught

/-- What `extract_code` does: return the stripped code string, raise one of
its own `ValueError`s, raise the wrapping
`ValueError(f"Failed to extract content from response: ...")` (whose message
embeds a CPython exception rendering, not modelled), or escape with an
uncaught `AttributeError` (`.get`/`.strip()` on a value without that
attribute — not in the caught exception tuple). -/
inductive ExtractOutcome where
  | ok (code : String)
  | valueError (msg : String)
  | valueErrorWrapped
  | attributeError
  deriving Repr, DecidableEq

/-- `extract_code` from `src/openrouter.py`, over a decoded response dict.
The markdown-fence stripper `_strip_markdown_fences` (a regular-expression
routine whose output the claims do not constrain) is passed in as `strip`. -/
def extract_code (strip : String → String)
    (response : List (String × Json)) : ExtractOutcome :=
  let choices := (jsonGet response "choices").getD (.arr [])
  if ¬ choices.truthy then .valueError "Response contains no choices"
  else
    match subscriptZero choices with
    | .caught => .valueErrorWrapped
    | .ok c0 =>
      match c0 with
      | .obj c0fields =>
        match (jsonGet c0fields "message").getD (.obj []) with
        | .obj mfields =>
          match (jsonGet mfields "content").getD .null with
          | .null => .valueError "Response message has no content"
          | .str s => .ok (strip s)
          | _ => .attributeError
        | _ => .attributeError
      | _ => .attributeError

/-- Shape condition under which `extract_code` never trips over an
`AttributeError`: whenever the first choice is reached it is a dict (or a
value whose subscripting raises a caught exception), its `message` value is a
dict, and its `content` value is absent, `null` or a string. -/
def extractShapeOK (response : List (String × Json)) : Bool :=
  let choices := (jsonGet response "choices").getD (.arr [])
  if ¬ choices.truthy then true
  else
    match subscriptZero choices with
    | .caught => true
    | .ok c0 =>
      match c0 with
      | .obj c0fields =>
        match (jsonGet c0fields "message").getD (.obj []) with
        | .obj mfields =>
          match (jsonGet mfields "content").getD .null with
          | .null => true
          | .str _ => true
          | _ => false
        | _ => false
      | _ => false

/-- The content string of a response, in the sense of the claim ("the first
choice's message content"): present iff the `choices` value is truthy, its
first element is reachable and a dict, its `message` a dict, and that dict's
`content` a string. -/
def responseContent (response : List (String × Json)) : Option String :=
  let choices := (jsonGet response "choices").getD (.arr [])
  if ¬ choices.truthy then none
  else
    match subscriptZero choices with
    | .caught => none
    | .ok c0 =>
      match c0 with
      | .obj c0fields =>
        match (jsonGet c0fields "message").getD (.obj []) with
        | .obj mfields =>
          match (jsonGet mfields "content").getD .null with
          | .str s => some s
          | _ => none
        | _ => none
      | _ => none

/-- Whether an `extract_code` outcome is a raised `ValueError` (either of the
two explicit raises or the wrapping one). -/
def ExtractOutcome.isValueError : ExtractOutcome → Bool
  | .valueError _ => true
  | .valueErrorWrapped => true
  | _ => false

/-! ## Parallel dispatch engine (`src/parallel.py`) -/

/-- `ModelStatus` from `src/parallel.py`: the mutable, lock-protected record
per model. Wall-clock instants and durations are abstract `Nat` time units. -/
structure ModelStatus where
  model : String
  status : String
  elapsed_time : Nat
  error_message : Option String
  response : Option ReconResponse
  start_time : Option Nat
  spinner_index : Nat
  deriving Repr, DecidableEq

/-- The record as created by the `ModelStatus(model=model)` dataclass
defaults: `status="waiting"`, everything else absent/zero. -/
def initModelStatus (m : String) : ModelStatus :=
  { model := m
    status := "waiting"
    elapsed_time := 0
    error_message := none
    response := none
    start_time := none
    spinner_index := 0 }

/-- The exception caught by `_run_single_model`'s two `except` clauses:
an `OpenRouterError`, or any other exception (its `str()` passed in
abstractly). -/
inductive WorkerExc where
  | openRouter (e : ORError)
  | other (msg : String)
  deriving Repr, DecidableEq

/-- The `error_message` recorded for a caught worker exception:
`str(e)` for an `OpenRouterError`, `f"Unexpected error: ..."` otherwise. -/
def workerExcMessage : WorkerExc → String
  | .openRouter e => e.toStr
  | .other msg => "Unexpected error: " ++ msg

/-- One lock-protected mutation of its model's entry performed by
`_run_single_model`: the initial transition to `streaming`, an
`on_activity` tick, or one of the two terminal updates. -/
inductive WStep where
  | startStreaming (t0 : Nat)
  | activityTick (elapsed : Nat)
  | finishOk (elapsed : Nat) (resp : ReconResponse)
  | finishErr (elapsed : Nat) (exc : WorkerExc)
  deriving Repr, DecidableEq

/-- The effect of one worker step on the model's own entry, exactly the four
`with lock:` blocks of `_run_single_model`. -/
def applyWStep : WStep → ModelStatus → ModelStatus
  | .startStreaming t0, st =>
      { st with status := "streaming", start_time := some t0 }
  | .activityTick e, st =>
      { st with elapsed_time := e, spinner_index := st.spinner_index + 1 }
  | .finishOk e resp, st =>
      { st with status := "done", elapsed_time := e, response := some resp }
  | .finishErr e exc, st =>
      { st with
        status := "error"
        elapsed_time := e
        error_message := some (workerExcMessage exc) }

/-- How one worker invocation ends: `send_prompt_streaming` returns a
response, or raises (an `OpenRouterError` or anything else) — always caught
by `_run_single_model`. -/
inductive WorkerOutcome where
  | success (resp : ReconResponse)
  | raised (exc : WorkerExc)
  deriving Repr, DecidableEq

/-- The complete sequence of mutations one worker performs on its entry:
the `streaming` transition, the activity ticks, then the terminal update. -/
def workerTrace (t0 : Nat) (ticks : List Nat) (tEnd : Nat)
    (outcome : WorkerOutcome) : List WStep :=
  .startStreaming t0 :: (ticks.map .activityTick ++
    [match outcome with
     | .success r => .finishOk tEnd r
     | .raised exc => .finishErr tEnd exc])

/-- The shared status collection (`status_dict`), keyed by model name in the
original model order. -/
abbrev StatusDict := List (String × ModelStatus)

/-- The `status_dict` comprehension initializing every model to `waiting`. -/
def initStatusDict (models : List String) : StatusDict :=
  models.map (fun m => (m, initModelStatus m))

/-- `status_dict[m]` (first binding wins). -/
def lookupStatus : StatusDict → String → Option ModelStatus
  | [], _ => none
  | (k, v) :: rest, m => if k = m then some v else lookupStatus rest m

/-- In-place mutation of model `m`'s entry. -/
def updateStatus : StatusDict → String → (ModelStatus → ModelStatus) → StatusDict
  | [], _, _ => []
  | (k, v) :: rest, m, f =>
    if k = m then (k, f v) :: updateStatus rest m f
    else (k, v) :: updateStatus rest m f

/-- Python truthiness of the optional `start_time` float (`None` and `0.0`
are falsy). -/
def startTruthy : Option Nat → Bool
  | none => false
  | some t => t ≠ 0

/-- The polling loop's per-entry update: recompute `elapsed_time` for a
streaming model with a truthy `start_time`. -/
def pollEntry (now : Nat) (st : ModelStatus) : ModelStatus :=
  if st.status = "streaming" ∧ startTruthy st.start_time then
    { st with elapsed_time := now - st.start_time.getD 0 }
  else st

/-- One atomic mutation of the shared collection during the run: a worker's
lock-protected step, or one pass of the driver's polling loop over all
entries. -/
inductive RunEvent where
  | worker (m : String) (s : WStep)
  | driverPoll (now : Nat)
  deriving Repr, DecidableEq

/-- Apply one event to the shared collection. -/
def applyEvent (d : StatusDict) : RunEvent → StatusDict
  | .worker m s => updateStatus d m (applyWStep s)
  | .driverPoll now => d.map (fun p => (p.1, pollEntry now p.2))

/-- The whole run over a given interleaving (schedule) of worker steps and
driver polls. -/
def runSchedule (models : List String) (schedule : List RunEvent) : StatusDict :=
  schedule.foldl applyEvent (initStatusDict models)

/-- `run_models_parallel` from `src/parallel.py`, over an explicit schedule.
The guard models CPython's `ThreadPoolExecutor.__init__`, which raises
`ValueError("max_workers must be greater than 0")` for
`max_workers=len(models)=0` before any task is submitted, so the
initialized status collection is never returned for an empty model list. -/
def run_models_parallel (models : List String)
    (schedule : List RunEvent) : Except String StatusDict :=
  if models.length = 0 then .error "max_workers must be greater than 0"
  else .ok (runSchedule models schedule)

/-- The steps of the schedule belonging to model `m`'s worker, in order. -/
def workerSteps (schedule : List RunEvent) (m : String) : List WStep :=
  schedule.filterMap fun e =>
    match e with
    | .worker m' s => if m' = m then some s else none
    | .driverPoll _ => none

/-- The status-field effect of one worker step. -/
def stepStatus : WStep → String → String
  | .startStreaming _, _ => "streaming"
  | .activityTick _, s => s
  | .finishOk _ _, _ => "done"
  | .finishErr _ _, _ => "error"

/-- When a worker step can actually occur on the current entry state during
an execution of `_run_single_model`: the `streaming` transition happens on
the freshly created `waiting` record; activity ticks are callbacks issued
inside the transport call; the terminal update follows the transport call. -/
def stepOK (st : ModelStatus) : WStep → Prop
  | .startStreaming _ => st.status = "waiting"
  | .activityTick _ => st.status = "streaming"
  | .finishOk _ _ => st.status = "streaming"
  | .finishErr _ _ => st.status = "streaming"

/-- A run of the engine: a sequence of events in which every worker step is
applied to an entry that is in the state the worker's control flow puts it
in (`ValidRun d evs d'` reads: from collection `d`, the events `evs` can
occur and produce `d'`). -/
inductive ValidRun : StatusDict → List RunEvent → StatusDict → Prop where
  | nil (d : StatusDict) : ValidRun d [] d
  | worker (d : StatusDict) (m : String) (s : WStep) (st : ModelStatus)
      (evs : List RunEvent) (d' : StatusDict)
      (hl : lookupStatus d m = some st) (hok : stepOK st s)
      (h : ValidRun (applyEvent d (.worker m s)) evs d') :
      ValidRun d (.worker m s :: evs) d'
  | poll (d : StatusDict) (now : Nat) (evs : List RunEvent) (d' : StatusDict)
      (h : ValidRun (applyEvent d (.driverPoll now)) evs d') :
      ValidRun d (.driverPoll now :: evs) d'

/-- The claimed per-record invariant: a `done` record has a response and no
error message, an `error` record has an error message and no response, and a
`waiting` or `streaming` record has neither. -/
def statusInvariant (st : ModelStatus) : Prop :=
  (st.status = "done" → st.response.isSome ∧ st.error_message = none) ∧
  (st.status = "error" → st.error_message.isSome ∧ st.response = none) ∧
  (st.status = "waiting" ∨ st.status = "streaming" →
    st.response = none ∧ st.error_message = none)

/-! ## Claims C4 and C5 (renderer) -/

/-- **C4.** For every invocation of `render_stl`, the returned `RenderResult`
has `success = true` iff the renderer subprocess exited with code zero and the
expected output artifact exists on disk afterward; in particular exit code 0
with no output file yields `success = false` together with a non-empty
`error_message`. -/
theorem C4_render_success_iff (scad openscad : String) (timeout : Nat)
    (outcome : SubprocessOutcome) (elapsed : Nat) :
    ((render_stl scad openscad timeout outcome elapsed).success = true ↔
      ∃ so se, outcome = .completed 0 so se true) ∧
    (∀ so se, outcome = .completed 0 so se false →
      (render_stl scad openscad timeout outcome elapsed).success = false ∧
      ∃ m, (render_stl scad openscad timeout outcome elapsed).error_message
          = some m ∧ m ≠ "") := by
  constructor
  · cases outcome with
    | completed rc so se ex =>
      simp only [render_stl]
      by_cases h : rc = 0 ∧ ex = true
      · simp [h, h.1, h.2]
      · rw [if_neg h]
        simp only [show (false = true) = False by simp, false_iff]
        rintro ⟨so', se', heq⟩
        injection heq with h1 h2 h3 h4
        exact h ⟨h1, h4⟩
    | fileNotFound => simp [render_stl]
    | timeoutExpired => simp [render_stl]
  · rintro so se rfl
    simp only [render_stl]
    rw [if_neg (by simp)]
    refine ⟨rfl, ?_⟩
    by_cases hse : se ≠ ""
    · by_cases hst : se.trim = ""
      · exact ⟨s!"OpenSCAD exited with code {(0 : Int)}", by simp [hse, hst], by decide⟩
      · exact ⟨se.trim, by simp [hse, hst], hst⟩
    · by_cases hso : so.trim = ""
      · exact ⟨s!"OpenSCAD exited with code {(0 : Int)}", by simp [hse, hso], by decide⟩
      · exact ⟨so.trim, by simp [hse, hso], hso⟩

/-- Witness for C4 at a concrete input: exit code 0, empty stdout/stderr, no
output artifact. -/
theorem C4_render_success_iff_witness :
    (render_stl "a.scad" "openscad" 1200
        (.completed 0 "" "" false) 7).success = false ∧
    ∃ m, (render_stl "a.scad" "openscad" 1200
        (.completed 0 "" "" false) 7).error_message = some m ∧ m ≠ "" :=
  (C4_render_success_iff "a.scad" "openscad" 1200
      (.completed 0 "" "" false) 7).2 "" "" rfl

/-- **C5.** Every `RenderResult` constructed by `render_stl` — on any outcome
(success, non-zero exit, executable not found, timeout) — satisfies:
`stl_path` is present iff `success`; `error_message` is present iff not
`success`; and `scad_path` and `render_time` are always present (the saved
source path and the measured duration). -/
theorem C5_render_result_invariants (scad openscad : String) (timeout : Nat)
    (outcome : SubprocessOutcome) (elapsed : Nat) :
    let r := render_stl scad openscad timeout outcome elapsed
    (r.stl_path.isSome ↔ r.success = true) ∧
    (r.error_message.isSome ↔ ¬ r.success = true) ∧
    r.scad_path = scad ∧ r.render_time = elapsed := by
  cases outcome with
  | completed rc so se ex =>
    by_cases h : rc = 0 ∧ ex = true
    · simp [render_stl, h]
    · simp [render_stl, if_neg h]
  | fileNotFound => simp [render_stl]
  | timeoutExpired => simp [render_stl]

/-! ## Claim C7 (transport error mapping) -/

/-- Every `OpenRouterError` raised by `_handle_http_error` carries the
originating model identifier. -/
lemma handleHttpError_model (resp : HttpResponse) (model : String) :
    ∀ e, handle_http_error resp model = .raised e → e.model = model := by
  intro e h
  unfold handle_http_error at h
  split_ifs at h with h1 h2 h3 h4
  · cases h; rfl
  · cases h; rfl
  · cases h; rfl
  · revert h
    cases errorMsgOf resp with
    | ok msg => intro h; cases h; rfl
    | error u => intro h; cases h

/-- **C7 counterexample.** The claim fails as stated: an HTTP 500 response
whose body decodes to a JSON object whose `error` field is a *string* (so no
decoded error message is present) does not yield a generic API error carrying
the raw body — `_handle_http_error` escapes with an uncaught
`AttributeError` (`.get` on a non-dict). -/
theorem C7_counterexample :
    handle_http_error
        { status_code := 500
          jsonResult := some (.obj [("error", Json.str "oops")])
          text := "raw body" } "acme/model" = .attrError := by
  decide

/-- **C7 amended.** HTTP 401 maps to an authentication error, 429 to a
rate-limit error, 404 to a model-not-found error; another status ≥ 400 maps
to a generic API error carrying the decoded error message when the body is a
JSON object whose `error` field is an object with a `message`, and the raw
body when the body is undecodable or lacks an `error`/`message` field — but
when the body decodes to a non-object, or its `error` field is present and
not an object, the handler instead escapes with an uncaught `AttributeError`;
a request timeout maps to a timeout `OpenRouterError` and any other
transport-level exception to a wrapped generic `OpenRouterError`; and every
raised error carries the originating model identifier. -/
theorem C7_error_mapping (model : String) (tc : Nat)
    (decode : List Char → Option ChunkObj) (outcome : TransportOutcome) :
    (outcome = .timeout →
      send_prompt_streaming model tc decode outcome =
        .err ⟨.base, s!"Request timed out after {tc} seconds", model, none⟩) ∧
    (∀ m, outcome = .requestException m →
      send_prompt_streaming model tc decode outcome =
        .err ⟨.base, "Request failed: " ++ m, model, none⟩) ∧
    (∀ resp chunks, outcome = .response resp chunks →
      (resp.status_code = 401 →
        send_prompt_streaming model tc decode outcome =
          .err ⟨.authentication, "Invalid API key or authentication failed",
            model, some 401⟩) ∧
      (resp.status_code = 429 →
        send_prompt_streaming model tc decode outcome =
          .err ⟨.rateLimit, "Rate limit exceeded. Please wait before retrying.",
            model, some 429⟩) ∧
      (resp.status_code = 404 →
        send_prompt_streaming model tc decode outcome =
          .err ⟨.modelNotFound, "Model not found: " ++ model, model, some 404⟩) ∧
      (400 ≤ resp.status_code → resp.status_code ≠ 401 →
        resp.status_code ≠ 429 → resp.status_code ≠ 404 →
        (∀ fields efields v, resp.jsonResult = some (.obj fields) →
          jsonGet fields "error" = some (.obj efields) →
          jsonGet efields "message" = some v →
          send_prompt_streaming model tc decode outcome =
            .err ⟨.base, s!"API error ({resp.status_code}): {pyStr v}",
              model, some resp.status_code⟩) ∧
        (errorMsgOf resp = .ok resp.text →
          send_prompt_streaming model tc decode outcome =
            .err ⟨.base, s!"API error ({resp.status_code}): {resp.text}",
              model, some resp.status_code⟩) ∧
        (errorMsgOf resp = .error () →
          send_prompt_streaming model tc decode outcome = .attrError))) ∧
    (∀ e, send_prompt_streaming model tc decode outcome = .err e →
      e.model = model) := by
  refine ⟨?_, ?_, ?_, ?_⟩
  · rintro rfl; rfl
  · rintro m rfl; rfl
  · rintro resp chunks rfl
    refine ⟨?_, ?_, ?_, ?_⟩
    · intro h401
      simp [send_prompt_streaming, handle_http_error, h401]
    · intro h429
      have : resp.status_code ≠ 401 := by omega
      simp [send_prompt_streaming, handle_http_error, h429, this]
    · intro h404
      have h1 : resp.status_code ≠ 401 := by omega
      have h2 : resp.status_code ≠ 429 := by omega
      simp [send_prompt_streaming, handle_http_error, h404, h1, h2]
    · intro h400 h1 h2 h3
      refine ⟨?_, ?_, ?_⟩
      · intro fields efields v hf he hm
        have hmsg : errorMsgOf resp = .ok (pyStr v) := by
          simp [errorMsgOf, hf, he, hm]
        simp [send_prompt_streaming, handle_http_error, h1, h2, h3, h400, hmsg]
      · intro hmsg
        simp [send_prompt_streaming, handle_http_error, h1, h2, h3, h400, hmsg]
      · intro hmsg
        simp [send_prompt_streaming, handle_http_error, h1, h2, h3, h400, hmsg]
  · intro e h
    cases outcome with
    | timeout => cases h; rfl
    | requestException m => cases h; rfl
    | response resp chunks =>
      revert h
      simp only [send_prompt_streaming]
      cases hh : handle_http_error resp model with
      | ok => intro h; cases h
      | raised e' =>
        intro h
        have he : e' = e := by injection h
        subst he
        exact handleHttpError_model resp model e' hh
      | attrError => intro h; cases h

/-- Witness for C7 at concrete inputs: a 500 response with a well-formed
error body maps to the generic API error carrying the decoded message. -/
theorem C7_error_mapping_witness :
    send_prompt_streaming "acme/model" 30 (fun _ => none)
        (.response
          { status_code := 500
            jsonResult := some (.obj
              [("error", Json.obj [("message", Json.str "boom")])])
            text := "raw" } []) =
      .err ⟨.base, "API error (500): boom", "acme/model", some 500⟩ := by
  have h := ((C7_error_mapping "acme/model" 30 (fun _ => none)
      (.response
        { status_code := 500
          jsonResult := some (.obj
            [("error", Json.obj [("message", Json.str "boom")])])
          text := "raw" } [])).2.2.1 _ [] rfl).2.2.2
      (by decide) (by decide) (by decide) (by decide)
  have h2 := h.1 [("error", Json.obj [("message", Json.str "boom")])]
      [("message", Json.str "boom")] (Json.str "boom") rfl rfl rfl
  exact h2.trans (by decide)

/-! ## Dispatch engine: basic lemmas about the shared status collection -/

/-- Reading the entry a worker just mutated. -/
lemma lookupStatus_updateStatus_self (d : StatusDict) (m : String)
    (f : ModelStatus → ModelStatus) :
    lookupStatus (updateStatus d m f) m = (lookupStatus d m).map f := by
  induction d with
  | nil => rfl
  | cons p rest ih =>
    obtain ⟨k, v⟩ := p
    by_cases h : k = m
    · simp [updateStatus, lookupStatus, h]
    · simp [updateStatus, lookupStatus, h, ih]

/-- A worker's mutation leaves every other key's entry untouched. -/
lemma lookupStatus_updateStatus_other (d : StatusDict) (m k : String)
    (hk : k ≠ m) (f : ModelStatus → ModelStatus) :
    lookupStatus (updateStatus d m f) k = lookupStatus d k := by
  induction d with
  | nil => rfl
  | cons p rest ih =>
    obtain ⟨k', v⟩ := p
    by_cases h : k' = m
    · subst h
      have : k' ≠ k := fun hh => hk hh.symm
      simp [updateStatus, lookupStatus, this, ih]
    · by_cases h2 : k' = k
      · subst h2; simp [updateStatus, lookupStatus, h, hk]
      · simp [updateStatus, lookupStatus, h, h2, ih]

/-- Reading an entry after a value-wise map over the whole collection. -/
lemma lookupStatus_mapValues (d : StatusDict)
    (g : ModelStatus → ModelStatus) (k : String) :
    lookupStatus (d.map (fun p => (p.1, g p.2))) k
      = (lookupStatus d k).map g := by
  induction d with
  | nil => rfl
  | cons p rest ih =>
    obtain ⟨k', v⟩ := p
    by_cases h : k' = k
    · simp [lookupStatus, h]
    · simp [lookupStatus, h, ih]

/-- Every model in the list is initialized to the default `waiting` record. -/
lemma lookupStatus_init (models : List String) (m : String) (hm : m ∈ models) :
    lookupStatus (initStatusDict models) m = some (initModelStatus m) := by
  induction models with
  | nil => cases hm
  | cons k rest ih =>
    rcases List.mem_cons.mp hm with rfl | hmem
    · simp [initStatusDict, lookupStatus]
    · by_cases h : k = m
      · subst h; simp [initStatusDict, lookupStatus]
      · simp [initStatusDict, lookupStatus, h]
        exact ih hmem

/-- A worker step changes the status field according to `stepStatus`. -/
lemma applyWStep_status (s : WStep) (st : ModelStatus) :
    (applyWStep s st).status = stepStatus s st.status := by
  cases s <;> rfl

/-- The polling loop never changes a record's status field. -/
lemma pollEntry_status (now : Nat) (st : ModelStatus) :
    (pollEntry now st).status = st.status := by
  unfold pollEntry; split <;> rfl

/-- The status of a model after an arbitrary schedule is the fold of its own
worker's steps over its initial status: the driver's polls and the other
workers' steps do not affect it. -/
lemma status_after_schedule (schedule : List RunEvent) :
    ∀ (d : StatusDict) (m : String),
      (lookupStatus (schedule.foldl applyEvent d) m).map ModelStatus.status =
      (lookupStatus d m).map
        (fun st => (workerSteps schedule m).foldl
          (fun acc s => stepStatus s acc) st.status) := by
  induction schedule with
  | nil =>
    intro d m
    cases h : lookupStatus d m <;> simp [workerSteps, h]
  | cons e rest ih =>
    intro d m
    rw [List.foldl_cons, ih]
    cases e with
    | driverPoll now =>
      have : applyEvent d (.driverPoll now)
          = d.map (fun p => (p.1, pollEntry now p.2)) := rfl
      rw [this, lookupStatus_mapValues]
      have hws : workerSteps (RunEvent.driverPoll now :: rest) m
          = workerSteps rest m := by simp [workerSteps]
      rw [hws]
      cases h : lookupStatus d m <;> simp [h, pollEntry_status]
    | worker m' s =>
      by_cases h : m' = m
      · subst h
        have : applyEvent d (.worker m' s)
            = updateStatus d m' (applyWStep s) := rfl
        rw [this, lookupStatus_updateStatus_self]
        have hws : workerSteps (RunEvent.worker m' s :: rest) m'
            = s :: workerSteps rest m' := by simp [workerSteps]
        rw [hws]
        cases hd : lookupStatus d m' <;>
          simp [hd, applyWStep_status]
      · have : applyEvent d (.worker m' s)
            = updateStatus d m' (applyWStep s) := rfl
        rw [this, lookupStatus_updateStatus_other _ _ _ (fun hh => h hh.symm)]
        have hws : workerSteps (RunEvent.worker m' s :: rest) m
            = workerSteps rest m := by simp [workerSteps, h]
        rw [hws]

/-- The activity ticks and the streaming transition never touch the
`response` field. -/
lemma foldTicks_response (ts : List Nat) :
    ∀ st : ModelStatus,
      (((ts.map WStep.activityTick).foldl (fun acc s => applyWStep s acc)
        st)).response = st.response := by
  induction ts with
  | nil => intro st; rfl
  | cons t rest ih => intro st; simpa using ih _

/-- Only model `A`'s entry is affected by the events of `A`'s worker. -/
lemma lookup_workerEvents_other (steps : List WStep) :
    ∀ (d : StatusDict) (A B : String), B ≠ A →
      lookupStatus ((steps.map (RunEvent.worker A)).foldl applyEvent d) B
        = lookupStatus d B := by
  induction steps with
  | nil => intro d A B _; rfl
  | cons s rest ih =>
    intro d A B hBA
    simp only [List.map_cons, List.foldl_cons]
    rw [ih _ A B hBA]
    exact lookupStatus_updateStatus_other d A B hBA _

/-- `A`'s entry after `A`'s worker's events is the fold of the steps over the
previous entry. -/
lemma lookup_workerEvents_self (steps : List WStep) :
    ∀ (d : StatusDict) (A : String),
      lookupStatus ((steps.map (RunEvent.worker A)).foldl applyEvent d) A
        = (lookupStatus d A).map
            (fun st => steps.foldl (fun acc s => applyWStep s acc) st) := by
  induction steps with
  | nil => intro d A; cases h : lookupStatus d A <;> simp [h]
  | cons s rest ih =>
    intro d A
    simp only [List.map_cons, List.foldl_cons]
    rw [ih]
    have : applyEvent d (.worker A s) = updateStatus d A (applyWStep s) := rfl
    rw [this, lookupStatus_updateStatus_self]
    cases h : lookupStatus d A <;> simp [h]

/-- The polling update preserves the claimed invariant (it only recomputes
`elapsed_time`). -/
lemma statusInvariant_pollEntry (now : Nat) (st : ModelStatus)
    (h : statusInvariant st) : statusInvariant (pollEntry now st) := by
  unfold pollEntry
  split
  · exact h
  · exact h

/-! ## Claim C1 (all statuses terminal on return) -/

/-- **C1.** For every non-empty model list, when `run_models_parallel`
returns a status collection — over any interleaving of the workers' steps
and the driver's polls in which each model's worker ran its complete
mutation sequence (`streaming` transition, activity ticks, terminal
update) — the status of every model in the returned mapping is `"done"` or
`"error"`, never `"waiting"` or `"streaming"`. -/
theorem C1_terminal_statuses (models : List String) (schedule : List RunEvent)
    (d : StatusDict)
    (hne : models ≠ [])
    (hrun : run_models_parallel models schedule = .ok d)
    (hproj : ∀ m ∈ models, ∃ t0 ticks tEnd outcome,
      workerSteps schedule m = workerTrace t0 ticks tEnd outcome) :
    ∀ m ∈ models,
      (lookupStatus d m).map ModelStatus.status = some "done" ∨
      (lookupStatus d m).map ModelStatus.status = some "error" := by
  intro m hm
  have hd : d = runSchedule models schedule := by
    unfold run_models_parallel at hrun
    rw [if_neg (by simpa using hne)] at hrun
    exact (Except.ok.inj hrun).symm
  subst hd
  obtain ⟨t0, ticks, tEnd, outcome, hw⟩ := hproj m hm
  unfold runSchedule
  rw [status_after_schedule, lookupStatus_init models m hm, Option.map_some',
    hw]
  cases outcome with
  | success r =>
    left
    simp [workerTrace, List.foldl_append, stepStatus]
  | raised exc =>
    right
    simp [workerTrace, List.foldl_append, stepStatus]

/-- Witness for C1: two models, one succeeding and one failing, over a
concrete interleaved schedule with a driver poll in between. -/
theorem C1_terminal_statuses_witness :
    (lookupStatus (runSchedule ["a", "b"]
        [.worker "a" (.startStreaming 1),
         .worker "b" (.startStreaming 1),
         .driverPoll 3,
         .worker "a" (.finishOk 5 ⟨"i", "a", "code", none, "stop"⟩),
         .worker "b" (.finishErr 7 (.other "boom"))]) "b").map
      ModelStatus.status = some "error" := by
  have h := C1_terminal_statuses ["a", "b"]
      [.worker "a" (.startStreaming 1),
       .worker "b" (.startStreaming 1),
       .driverPoll 3,
       .worker "a" (.finishOk 5 ⟨"i", "a", "code", none, "stop"⟩),
       .worker "b" (.finishErr 7 (.other "boom"))]
      (runSchedule ["a", "b"]
        [.worker "a" (.startStreaming 1),
         .worker "b" (.startStreaming 1),
         .driverPoll 3,
         .worker "a" (.finishOk 5 ⟨"i", "a", "code", none, "stop"⟩),
         .worker "b" (.finishErr 7 (.other "boom"))])
      (by decide) (by rw [run_models_parallel, if_neg (by decide)])
      (by
        intro m hm
        rcases List.mem_cons.mp hm with rfl | hm2
        · exact ⟨1, [], 5, .success ⟨"i", "a", "code", none, "stop"⟩, rfl⟩
        · rcases List.mem_cons.mp hm2 with rfl | hm3
          · exact ⟨1, [], 7, .raised (.other "boom"), rfl⟩
          · cases hm3)
      "b" (by decide)
  rcases h with h | h
  · exact absurd h (by decide)
  · exact h

/-! ## Claim C2 (status/payload invariant at every point) -/

/-- **C2.** At every point in a record's lifecycle: the freshly created
collection satisfies the invariant — `done` implies a response and no error
message, `error` implies an error message and no response, `waiting` and
`streaming` imply neither — and every valid run of the engine (every
interleaving of worker steps applied in the states `_run_single_model`
produces them in, and driver polls) preserves it, so it holds in every
reachable collection. -/
theorem C2_status_payload_invariant :
    (∀ (models : List String) (m : String) (st : ModelStatus),
      lookupStatus (initStatusDict models) m = some st → statusInvariant st) ∧
    (∀ (d : StatusDict) (evs : List RunEvent) (d' : StatusDict),
      ValidRun d evs d' →
      (∀ m st, lookupStatus d m = some st → statusInvariant st) →
      (∀ m st, lookupStatus d' m = some st → statusInvariant st)) := by
  constructor
  · intro models m st h
    induction models with
    | nil => cases h
    | cons k rest ih =>
      by_cases hk : k = m
      · subst hk
        rw [show lookupStatus (initStatusDict (k :: rest)) k
            = some (initModelStatus k) by simp [initStatusDict, lookupStatus]]
          at h
        obtain rfl : initModelStatus k = st := by injection h
        exact ⟨fun hh => absurd (show "waiting" = "done" from hh) (by decide),
          fun hh => absurd (show "waiting" = "error" from hh) (by decide),
          fun _ => ⟨rfl, rfl⟩⟩
      · rw [show lookupStatus (initStatusDict (k :: rest)) m
            = lookupStatus (initStatusDict rest) m by
              simp [initStatusDict, lookupStatus, hk]] at h
        exact ih h
  · intro d evs d' hrun
    induction hrun with
    | nil d => exact fun hinv => hinv
    | worker d m s st evs d' hl hok _ ih =>
      intro hinv
      apply ih
      intro k stk hlk
      have happ : applyEvent d (.worker m s)
          = updateStatus d m (applyWStep s) := rfl
      by_cases hk : k = m
      · subst hk
        rw [happ, lookupStatus_updateStatus_self, hl, Option.map_some'] at hlk
        obtain rfl : applyWStep s st = stk := by injection hlk
        have hst := hinv k st hl
        cases s with
        | startStreaming t0 =>
          have hnone := hst.2.2 (Or.inl hok)
          exact ⟨fun hh => absurd (show "streaming" = "done" from hh)
              (by decide),
            fun hh => absurd (show "streaming" = "error" from hh) (by decide),
            fun _ => ⟨hnone.1, hnone.2⟩⟩
        | activityTick e =>
          have hw : st.status = "streaming" := hok
          have hnone := hst.2.2 (Or.inr hw)
          refine ⟨fun hh => absurd
              (hw.symm.trans (show st.status = "done" from hh)) (by decide),
            fun hh => absurd
              (hw.symm.trans (show st.status = "error" from hh)) (by decide),
            fun _ => ⟨hnone.1, hnone.2⟩⟩
        | finishOk e r =>
          have hw : st.status = "streaming" := hok
          have hnone := hst.2.2 (Or.inr hw)
          refine ⟨fun _ => ⟨rfl, hnone.2⟩,
            fun hh => absurd (show "done" = "error" from hh) (by decide),
            fun hh => ?_⟩
          rcases hh with hh | hh
          · exact absurd (show "done" = "waiting" from hh) (by decide)
          · exact absurd (show "done" = "streaming" from hh) (by decide)
        | finishErr e exc =>
          have hw : st.status = "streaming" := hok
          have hnone := hst.2.2 (Or.inr hw)
          refine ⟨fun hh => absurd (show "error" = "done" from hh) (by decide),
            fun _ => ⟨rfl, hnone.1⟩,
            fun hh => ?_⟩
          rcases hh with hh | hh
          · exact absurd (show "error" = "waiting" from hh) (by decide)
          · exact absurd (show "error" = "streaming" from hh) (by decide)
      · rw [happ, lookupStatus_updateStatus_other _ _ _ hk] at hlk
        exact hinv k stk hlk
    | poll d now evs d' _ ih =>
      intro hinv
      apply ih
      intro k stk hlk
      have happ : applyEvent d (.driverPoll now)
          = d.map (fun p => (p.1, pollEntry now p.2)) := rfl
      rw [happ, lookupStatus_mapValues] at hlk
      cases hd : lookupStatus d k with
      | none => rw [hd] at hlk; cases hlk
      | some st0 =>
        rw [hd, Option.map_some'] at hlk
        obtain rfl : pollEntry now st0 = stk := by injection hlk
        exact statusInvariant_pollEntry now st0 (hinv k st0 hd)

/-- Witness for C2: a two-step valid run (streaming transition, then
success) of a single model, whose final record satisfies the invariant. -/
theorem C2_status_payload_invariant_witness :
    statusInvariant
      (applyWStep (.finishOk 5 ⟨"i", "a", "code", none, "stop"⟩)
        (applyWStep (.startStreaming 1) (initModelStatus "a"))) := by
  have hv : ValidRun (initStatusDict ["a"])
      [.worker "a" (.startStreaming 1),
       .worker "a" (.finishOk 5 ⟨"i", "a", "code", none, "stop"⟩)]
      (applyEvent (applyEvent (initStatusDict ["a"])
        (.worker "a" (.startStreaming 1)))
        (.worker "a" (.finishOk 5 ⟨"i", "a", "code", none, "stop"⟩))) :=
    ValidRun.worker _ _ _ (initModelStatus "a") _ _ rfl rfl
      (ValidRun.worker _ _ _
        (applyWStep (.startStreaming 1) (initModelStatus "a")) _ _ rfl rfl
        (ValidRun.nil _))
  exact C2_status_payload_invariant.2 _ _ _ hv
    (fun m st h => C2_status_payload_invariant.1 ["a"] m st h)
    "a" _ rfl

/-! ## Claim C3 (worker isolation / frame property) -/

/-- **C3.** The complete event sequence of model `A`'s worker when the
transport call raises (an `OpenRouterError` — e.g. a transport error — or
any other exception) leaves every other model's entry — status,
elapsed time, response and error message — exactly unchanged, while `A`'s
entry is recorded as the terminal error: status `"error"`, the exception's
message, the measured elapsed time, and no change to the response field. -/
theorem C3_worker_isolation (d : StatusDict) (A B : String)
    (t0 tEnd : Nat) (ticks : List Nat) (exc : WorkerExc)
    (hBA : B ≠ A) (stA : ModelStatus)
    (hA : lookupStatus d A = some stA) :
    lookupStatus (((workerTrace t0 ticks tEnd (.raised exc)).map
        (RunEvent.worker A)).foldl applyEvent d) B = lookupStatus d B ∧
    ∃ st', lookupStatus (((workerTrace t0 ticks tEnd (.raised exc)).map
        (RunEvent.worker A)).foldl applyEvent d) A = some st' ∧
      st'.status = "error" ∧
      st'.error_message = some (workerExcMessage exc) ∧
      st'.elapsed_time = tEnd ∧
      st'.response = stA.response := by
  constructor
  · exact lookup_workerEvents_other _ d A B hBA
  · rw [lookup_workerEvents_self, hA, Option.map_some']
    refine ⟨_, rfl, ?_, ?_, ?_, ?_⟩
    · simp [workerTrace, List.foldl_append, applyWStep]
    · simp [workerTrace, List.foldl_append, applyWStep]
    · simp [workerTrace, List.foldl_append, applyWStep]
    · simp only [workerTrace, List.foldl_cons, List.foldl_append]
      simp only [List.foldl_cons, List.foldl_nil]
      rw [show ∀ st, (applyWStep (.finishErr tEnd exc) st).response
          = st.response from fun _ => rfl]
      rw [foldTicks_response]
      rfl

/-- Witness for C3: models `a` and `b` both initialized; `a`'s worker fails
with a rate-limit transport error after one activity tick; `b`'s entry is
untouched. -/
theorem C3_worker_isolation_witness :
    lookupStatus (((workerTrace 1 [2] 9
        (.raised (.openRouter ⟨.rateLimit, "Rate limit exceeded.", "a",
          some 429⟩))).map
        (RunEvent.worker "a")).foldl applyEvent (initStatusDict ["a", "b"]))
        "b" = lookupStatus (initStatusDict ["a", "b"]) "b" ∧
    ∃ st', lookupStatus (((workerTrace 1 [2] 9
        (.raised (.openRouter ⟨.rateLimit, "Rate limit exceeded.", "a",
          some 429⟩))).map
        (RunEvent.worker "a")).foldl applyEvent (initStatusDict ["a", "b"]))
        "a" = some st' ∧
      st'.status = "error" ∧
      st'.error_message = some (workerExcMessage
        (.openRouter ⟨.rateLimit, "Rate limit exceeded.", "a", some 429⟩)) ∧
      st'.elapsed_time = 9 ∧
      st'.response = (initModelStatus "a").response :=
  C3_worker_isolation (initStatusDict ["a", "b"]) "a" "b" 1 9 [2]
    (.openRouter ⟨.rateLimit, "Rate limit exceeded.", "a", some 429⟩)
    (by decide) (initModelStatus "a") rfl

/-! ## Claim C9 (`extract_code` error behaviour) -/

/-- **C9 counterexample.** The claim fails as stated: for the response dict
`{"choices": [{"message": "hi"}]}` no content is present (the first choice's
`message` is a string, so it has no content), yet `extract_code` does not
raise a `ValueError` — `"hi".get("content")` raises an uncaught
`AttributeError`. -/
theorem C9_counterexample :
    extract_code id
        [("choices", Json.arr [Json.obj [("message", Json.str "hi")]])]
      = .attributeError := rfl

/-- **C9 amended.** For every response dictionary in which the values
`extract_code` actually accesses have the shapes it expects (the first
choice, when its indexing does not raise a caught exception, is a dict; its
`message` value is a dict; the `content` value is absent, `null` or a
string), `extract_code` raises a `ValueError` if and only if no content is
present, and otherwise returns the extracted source-code string.  Outside
that shape (e.g. a string `message`, or a non-string `content`),
`extract_code` instead escapes with an uncaught `AttributeError`. -/
theorem C9_extract_code_behaviour (strip : String → String)
    (response : List (String × Json))
    (h : extractShapeOK response = true) :
    ((extract_code strip response).isValueError = true ↔
      responseContent response = none) ∧
    (∀ s, responseContent response = some s →
      extract_code strip response = .ok (strip s)) := by
  by_cases hc : ((jsonGet response "choices").getD (.arr [])).truthy = true
  · cases hsub : subscriptZero ((jsonGet response "choices").getD (.arr []))
      with
    | caught =>
      refine ⟨?_, ?_⟩
      · simp [extract_code, responseContent, hc, hsub,
          ExtractOutcome.isValueError]
      · intro s hs
        simp [responseContent, hc, hsub] at hs
    | ok c0 =>
      cases c0 with
      | obj c0fields =>
        cases hmsg : (jsonGet c0fields "message").getD (.obj []) with
        | obj mfields =>
          cases hcont : (jsonGet mfields "content").getD .null with
          | null =>
            refine ⟨?_, ?_⟩
            · simp [extract_code, responseContent, hc, hsub, hmsg, hcont,
                ExtractOutcome.isValueError]
            · intro s hs
              simp [responseContent, hc, hsub, hmsg, hcont] at hs
          | str s0 =>
            refine ⟨?_, ?_⟩
            · simp [extract_code, responseContent, hc, hsub, hmsg, hcont,
                ExtractOutcome.isValueError]
            · intro s hs
              rw [show responseContent response = some s0 by
                simp [responseContent, hc, hsub, hmsg, hcont]] at hs
              obtain rfl : s0 = s := by injection hs
              simp [extract_code, hc, hsub, hmsg, hcont]
          | bool b =>
            exfalso; simp [extractShapeOK, hc, hsub, hmsg, hcont] at h
          | num n =>
            exfalso; simp [extractShapeOK, hc, hsub, hmsg, hcont] at h
          | arr xs =>
            exfalso; simp [extractShapeOK, hc, hsub, hmsg, hcont] at h
          | obj fs2 =>
            exfalso; simp [extractShapeOK, hc, hsub, hmsg, hcont] at h
        | null => exfalso; simp [extractShapeOK, hc, hsub, hmsg] at h
        | bool b => exfalso; simp [extractShapeOK, hc, hsub, hmsg] at h
        | num n => exfalso; simp [extractShapeOK, hc, hsub, hmsg] at h
        | str s0 => exfalso; simp [extractShapeOK, hc, hsub, hmsg] at h
        | arr xs => exfalso; simp [extractShapeOK, hc, hsub, hmsg] at h
      | null => exfalso; simp [extractShapeOK, hc, hsub] at h
      | bool b => exfalso; simp [extractShapeOK, hc, hsub] at h
      | num n => exfalso; simp [extractShapeOK, hc, hsub] at h
      | str s0 => exfalso; simp [extractShapeOK, hc, hsub] at h
      | arr xs => exfalso; simp [extractShapeOK, hc, hsub] at h
  · refine ⟨?_, ?_⟩
    · simp [extract_code, responseContent, hc, ExtractOutcome.isValueError]
    · intro s hs
      simp [responseContent, hc] at hs

/-- Witness for C9 at a concrete input: a well-shaped response whose content
is `"cube();"` is extracted successfully. -/
theorem C9_extract_code_behaviour_witness :
    extract_code id
        [("choices", Json.arr [Json.obj
          [("message", Json.obj [("content", Json.str "cube();")])]])]
      = .ok "cube();" :=
  (C9_extract_code_behaviour id
    [("choices", Json.arr [Json.obj
      [("message", Json.obj [("content", Json.str "cube();")])]])]
    rfl).2 "cube();" rfl

/-! ## Claim C10 (empty model list) -/

/-- **C10.** For the empty model list, `run_models_parallel` does not return
a (then empty) mapping: the worker pool is constructed with
`max_workers = len(models) = 0`, which `ThreadPoolExecutor.__init__` rejects
with `ValueError("max_workers must be greater than 0")` before any status is
produced, so the call raises for every schedule. -/
theorem C10_empty_model_list (schedule : List RunEvent) :
    run_models_parallel [] schedule
      = .error "max_workers must be greater than 0" := rfl

/-! ## SSE stream lemmas: effect of one decoded chunk -/

/-- Consuming a decoded data object leaves the buffer alone. -/
lemma processDataObj_buffer (st : StreamState) (obj : ChunkObj) :
    (processDataObj st obj).buffer = st.buffer := by
  rcases obj with ⟨oid, omod, choices⟩
  cases choices with
  | nil => simp only [processDataObj]; split_ifs <;> rfl
  | cons c cs =>
    rcases c with ⟨⟨cont, reas⟩, fin⟩
    cases cont <;> cases reas <;> cases fin <;>
      simp only [processDataObj] <;> split_ifs <;> rfl

/-- Consuming a decoded data object appends exactly its content delta. -/
lemma processDataObj_content (st : StreamState) (obj : ChunkObj) :
    (processDataObj st obj).accumulated_content
      = st.accumulated_content ++ objContentDelta obj := by
  rcases obj with ⟨oid, omod, choices⟩
  cases choices with
  | nil =>
    simp only [processDataObj]
    split_ifs <;> simp [objContentDelta, String.append_empty]
  | cons c cs =>
    rcases c with ⟨⟨cont, reas⟩, fin⟩
    cases cont <;> cases reas <;> cases fin <;>
      simp only [processDataObj] <;> split_ifs <;>
      simp_all [objContentDelta, String.append_empty]

/-- Consuming a decoded data object appends exactly its reasoning delta. -/
lemma processDataObj_reasoning (st : StreamState) (obj : ChunkObj) :
    (processDataObj st obj).accumulated_reasoning
      = st.accumulated_reasoning ++ objReasoningDelta obj := by
  rcases obj with ⟨oid, omod, choices⟩
  cases choices with
  | nil =>
    simp only [processDataObj]
    split_ifs <;> simp [objReasoningDelta, String.append_empty]
  | cons c cs =>
    rcases c with ⟨⟨cont, reas⟩, fin⟩
    cases cont <;> cases reas <;> cases fin <;>
      simp only [processDataObj] <;> split_ifs <;>
      simp_all [objReasoningDelta, String.append_empty]

/-- Consuming a decoded data object records exactly its truthy finish
reason (keeping the previous one otherwise). -/
lemma processDataObj_finish (st : StreamState) (obj : ChunkObj) :
    (processDataObj st obj).finish_reason
      = match objFinish obj with
        | some fr => some fr
        | none => st.finish_reason := by
  rcases obj with ⟨oid, omod, choices⟩
  cases choices with
  | nil =>
    simp only [processDataObj]
    split_ifs <;> simp [objFinish]
  | cons c cs =>
    rcases c with ⟨⟨cont, reas⟩, fin⟩
    cases cont <;> cases reas <;> cases fin <;>
      simp only [processDataObj] <;> split_ifs <;>
      simp_all [objFinish]

/-- The sentinel-free line step leaves the buffer alone. -/
lemma lineStepND_buffer (decode : List Char → Option ChunkObj)
    (st : StreamState) (raw : List Char) :
    (lineStepND decode st raw).buffer = st.buffer := by
  unfold lineStepND
  dsimp only
  split_ifs with h
  · cases hd : decode ((stripChars raw).drop 6) with
    | none => rfl
    | some obj => simp [hd, processDataObj_buffer]
  · rfl

/-- The sentinel-free line step appends exactly the line's content delta. -/
lemma lineStepND_content (decode : List Char → Option ChunkObj)
    (st : StreamState) (raw : List Char) :
    (lineStepND decode st raw).accumulated_content
      = st.accumulated_content ++ lineContentDelta decode raw := by
  unfold lineStepND lineContentDelta linePayload lineChoice
  dsimp only
  split_ifs with h
  · cases hd : decode ((stripChars raw).drop 6) with
    | none => simp [hd, String.append_empty]
    | some obj => simp [hd, processDataObj_content, objContentDelta]
  · simp [h, String.append_empty]

/-- The sentinel-free line step appends exactly the line's reasoning
delta. -/
lemma lineStepND_reasoning (decode : List Char → Option ChunkObj)
    (st : StreamState) (raw : List Char) :
    (lineStepND decode st raw).accumulated_reasoning
      = st.accumulated_reasoning ++ lineReasoningDelta decode raw := by
  unfold lineStepND lineReasoningDelta linePayload lineChoice
  dsimp only
  split_ifs with h
  · cases hd : decode ((stripChars raw).drop 6) with
    | none => simp [hd, String.append_empty]
    | some obj => simp [hd, processDataObj_reasoning, objReasoningDelta]
  · simp [h, String.append_empty]

/-- The sentinel-free line step records exactly the line's truthy finish
reason. -/
lemma lineStepND_finish (decode : List Char → Option ChunkObj)
    (st : StreamState) (raw : List Char) :
    (lineStepND decode st raw).finish_reason
      = match lineFinish decode raw with
        | some fr => some fr
        | none => st.finish_reason := by
  unfold lineStepND lineFinish linePayload lineChoice
  dsimp only
  split_ifs with h
  · cases hd : decode ((stripChars raw).drop 6) with
    | none => simp [hd]
    | some obj => simp [hd, processDataObj_finish, objFinish]
  · simp [h]

/-! ## SSE stream lemmas: folding the line steps -/

/-- `lastElem` skips the head of a two-element-or-longer list. -/
lemma lastElem_cons_cons (a b : String) (t : List String) :
    lastElem (a :: b :: t) = lastElem (b :: t) := rfl

/-- A non-empty list has a last element. -/
lemma lastElem_some (l : List String) :
    ∀ x : String, ∃ y, lastElem (x :: l) = some y := by
  induction l with
  | nil => intro x; exact ⟨x, rfl⟩
  | cons b t ih => intro x; rw [lastElem_cons_cons]; exact ih b

/-- Unfolding `lastElem` over a cons cell. -/
lemma lastElem_cons (a : String) (l : List String) :
    lastElem (a :: l) = match lastElem l with
      | some x => some x
      | none => some a := by
  cases l with
  | nil => rfl
  | cons b t =>
    rw [lastElem_cons_cons]
    obtain ⟨y, hy⟩ := lastElem_some t b
    rw [hy]

/-- The last element belongs to the list. -/
lemma lastElem_mem : ∀ (l : List String) (x : String),
    lastElem l = some x → x ∈ l := by
  intro l
  induction l with
  | nil => intro x h; cases h
  | cons a t ih =>
    intro x h
    cases t with
    | nil =>
      have : a = x := by injection h
      rw [← this]; exact List.mem_cons_self _ _
    | cons b t2 =>
      rw [lastElem_cons_cons] at h
      exact List.mem_cons_of_mem _ (ih x h)

/-- The line fold leaves the buffer alone. -/
lemma coreFold_buffer (decode : List Char → Option ChunkObj) :
    ∀ (lines : List (List Char)) (st : StreamState),
      (coreFold decode st lines).buffer = st.buffer := by
  intro lines
  induction lines with
  | nil => intro st; rfl
  | cons raw rest ih =>
    intro st
    rw [show coreFold decode st (raw :: rest)
        = coreFold decode (lineStepND decode st raw) rest from rfl]
    rw [ih, lineStepND_buffer]

/-- The line fold splits over list concatenation. -/
lemma coreFold_append (decode : List Char → Option ChunkObj)
    (st : StreamState) (l1 l2 : List (List Char)) :
    coreFold decode st (l1 ++ l2)
      = coreFold decode (coreFold decode st l1) l2 := by
  simp [coreFold, List.foldl_append]

/-- The accumulated content after the line fold is the previous content
followed by the concatenation of the lines' content deltas in order. -/
lemma coreFold_content (decode : List Char → Option ChunkObj) :
    ∀ (lines : List (List Char)) (st : StreamState),
      (coreFold decode st lines).accumulated_content
        = st.accumulated_content
            ++ strConcat (lines.map (lineContentDelta decode)) := by
  intro lines
  induction lines with
  | nil => intro st; simp [coreFold, strConcat, String.append_empty]
  | cons raw rest ih =>
    intro st
    rw [show coreFold decode st (raw :: rest)
        = coreFold decode (lineStepND decode st raw) rest from rfl]
    rw [ih, lineStepND_content, String.append_assoc]
    rfl

/-- The accumulated reasoning after the line fold is the previous reasoning
followed by the concatenation of the lines' reasoning deltas in order. -/
lemma coreFold_reasoning (decode : List Char → Option ChunkObj) :
    ∀ (lines : List (List Char)) (st : StreamState),
      (coreFold decode st lines).accumulated_reasoning
        = st.accumulated_reasoning
            ++ strConcat (lines.map (lineReasoningDelta decode)) := by
  intro lines
  induction lines with
  | nil => intro st; simp [coreFold, strConcat, String.append_empty]
  | cons raw rest ih =>
    intro st
    rw [show coreFold decode st (raw :: rest)
        = coreFold decode (lineStepND decode st raw) rest from rfl]
    rw [ih, lineStepND_reasoning, String.append_assoc]
    rfl

/-- The recorded finish reason after the line fold is the last truthy finish
reason among the lines (keeping the previous one when there is none). -/
lemma coreFold_finish (decode : List Char → Option ChunkObj) :
    ∀ (lines : List (List Char)) (st : StreamState),
      (coreFold decode st lines).finish_reason
        = match lastElem (lines.filterMap (lineFinish decode)) with
          | some fr => some fr
          | none => st.finish_reason := by
  intro lines
  induction lines with
  | nil => intro st; rfl
  | cons raw rest ih =>
    intro st
    rw [show coreFold decode st (raw :: rest)
        = coreFold decode (lineStepND decode st raw) rest from rfl]
    rw [ih]
    cases hlf : lineFinish decode raw with
    | none =>
      rw [show (raw :: rest).filterMap (lineFinish decode)
          = rest.filterMap (lineFinish decode) by
            simp [List.filterMap_cons, hlf]]
      cases hlast : lastElem (rest.filterMap (lineFinish decode)) with
      | some x => rfl
      | none =>
        rw [lineStepND_finish, hlf]
    | some fr =>
      rw [show (raw :: rest).filterMap (lineFinish decode)
          = fr :: rest.filterMap (lineFinish decode) by
            simp [List.filterMap_cons, hlf]]
      rw [lastElem_cons]
      cases hlast : lastElem (rest.filterMap (lineFinish decode)) with
      | some x => rfl
      | none =>
        rw [lineStepND_finish, hlf]

/-- Concatenating the defaulted values equals concatenating the present
values (an absent value contributes the empty string). -/
lemma strConcat_map_getD {α : Type} (l : List α) (f : α → Option String) :
    strConcat (l.map (fun a => (f a).getD ""))
      = strConcat (l.filterMap f) := by
  induction l with
  | nil => rfl
  | cons a t ih =>
    cases hf : f a with
    | none => simp [strConcat, List.filterMap_cons, hf, ih, String.empty_append]
    | some s => simp [strConcat, List.filterMap_cons, hf, ih]

/-- When every present value is non-empty, filtering out the empty ones is
the identity. -/
lemma filterMap_truthy_eq {α : Type} (l : List α) (g : α → Option String)
    (h : ∀ a ∈ l, ∀ fr, g a = some fr → fr ≠ "") :
    l.filterMap (fun a => (g a).bind
        (fun fr => if fr = "" then none else some fr))
      = l.filterMap g := by
  induction l with
  | nil => rfl
  | cons a t ih =>
    have ht := fun x hx => h x (List.mem_cons_of_mem _ hx)
    cases hg : g a with
    | none => simp [List.filterMap_cons, hg, ih ht]
    | some fr =>
      have hne := h a (List.mem_cons_self _ _) fr hg
      simp [List.filterMap_cons, hg, hne, ih ht]

/-- `lineFinish` is the unfiltered per-line finish reason with the empty
string filtered out. -/
lemma lineFinish_eq (decode : List Char → Option ChunkObj) (raw : List Char) :
    lineFinish decode raw
      = ((linePayload raw).bind (fun d =>
          (lineChoice decode d).bind fun c => c.finish_reason)).bind
          (fun fr => if fr = "" then none else some fr) := by
  unfold lineFinish
  cases linePayload raw with
  | none => rfl
  | some d =>
    simp only [Option.some_bind]
    cases lineChoice decode d with
    | none => rfl
    | some c =>
      simp only [Option.some_bind]
      cases c.finish_reason with
      | none => rfl
      | some fr => rfl

/-! ## SSE stream lemmas: splitting buffered text into lines -/

/-- Text without a newline yields no complete line: it all stays partial. -/
lemma splitLines_no_newline : ∀ (b : List Char), '\n' ∉ b →
    splitLines b = ([], b) := by
  intro b
  induction b with
  | nil => intro _; rfl
  | cons c t ih =>
    intro h
    have hc : ¬ c = '\n' := fun hh => h (hh ▸ List.mem_cons_self c t)
    have ht : '\n' ∉ t := fun hh => h (List.mem_cons_of_mem c hh)
    simp [splitLines, ih ht, hc]

/-- The partial tail left by line splitting never contains a newline. -/
lemma splitLines_partial_no_newline : ∀ b : List Char,
    '\n' ∉ (splitLines b).2 := by
  intro b
  induction b with
  | nil => simp [splitLines]
  | cons c t ih =>
    rcases hsp : splitLines t with ⟨ls, p⟩
    rw [hsp] at ih
    by_cases hc : c = '\n'
    · simp [splitLines, hsp, hc]; exact ih
    · cases ls with
      | nil =>
        simp [splitLines, hsp, hc]
        exact ⟨fun hh => hc hh.symm, ih⟩
      | cons l0 lt =>
        simp [splitLines, hsp, hc]
        exact ih

/-- Splitting a concatenation: the complete lines of `a` come first, and the
partial tail of `a` is continued by `b`. -/
lemma splitLines_append : ∀ (a b : List Char),
    splitLines (a ++ b)
      = ((splitLines a).1 ++ (splitLines ((splitLines a).2 ++ b)).1,
         (splitLines ((splitLines a).2 ++ b)).2) := by
  intro a
  induction a with
  | nil => intro b; rfl
  | cons c a' ih =>
    intro b
    rcases h1 : splitLines a' with ⟨la, pa⟩
    have ihb := ih b
    rw [h1] at ihb
    by_cases hc : c = '\n'
    · subst hc
      rcases h2 : splitLines (pa ++ b) with ⟨L, P⟩
      rw [h2] at ihb
      simp only [List.cons_append, splitLines, h1, if_pos]
      simp only [List.append_eq]
      rw [ihb, h2]
    · cases la with
      | nil =>
        rcases h2 : splitLines (pa ++ b) with ⟨L, P⟩
        rw [h2] at ihb
        have hL : splitLines (a' ++ b) = (L, P) := by
          rw [ihb]; simp
        cases L with
        | nil =>
          simp only [List.cons_append, splitLines, h1, hL, h2, hc,
            if_neg, if_false]
          simp only [List.append_eq]
          rw [hL]
          simp
        | cons l0 ls =>
          simp only [List.cons_append, splitLines, h1, hL, h2, hc,
            if_neg, if_false]
          simp only [List.append_eq]
          rw [hL]
          simp
      | cons l0 ls =>
        rcases h2 : splitLines (pa ++ b) with ⟨L, P⟩
        rw [h2] at ihb
        simp only [List.cons_append, splitLines, h1, ihb, h2, hc,
          if_neg, if_false]
        simp only [List.append_eq]
        rw [ihb]
        simp

/-- The data-line marker is not a prefix of the empty line. -/
lemma dataMarker_not_prefix_nil :
    dataMarker.isPrefixOf ([] : List Char) = false := rfl

/-- The data-line marker is not a prefix of a comment line. -/
lemma dataMarker_not_prefix_colon (t : List Char) :
    dataMarker.isPrefixOf (':' :: t) = false := by
  simp [dataMarker, List.isPrefixOf]

/-! ## SSE stream lemmas: the consumption loop -/

/-- On a list of lines none of which is the sentinel data line, the
consumption loop never breaks: it performs exactly the sentinel-free line
fold and leaves no line unconsumed. -/
lemma processLineList_noDone (decode : List Char → Option ChunkObj) :
    ∀ (lines : List (List Char)) (st : StreamState),
      (∀ raw ∈ lines, isDoneDataLine raw = false) →
      processLineList decode st lines = (coreFold decode st lines, []) := by
  intro lines
  induction lines with
  | nil => intro st _; rfl
  | cons raw rest ih =>
    intro st hnd
    have hrest := fun r hr => hnd r (List.mem_cons_of_mem _ hr)
    have hraw := hnd raw (List.mem_cons_self _ _)
    have hcore : coreFold decode st (raw :: rest)
        = coreFold decode (lineStepND decode st raw) rest := rfl
    simp only [processLineList]
    by_cases he : (stripChars raw).isEmpty
    · have hnil : stripChars raw = [] := List.isEmpty_iff.mp he
      have hstep : lineStepND decode st raw = st := by
        unfold lineStepND; dsimp only
        rw [hnil, dataMarker_not_prefix_nil]
        simp
      rw [if_pos he, ih st hrest, hcore, hstep]
    · rw [if_neg he]
      by_cases hcol : (stripChars raw).head? = some ':'
      · have hstep : lineStepND decode st raw = st := by
          obtain ⟨t, ht⟩ : ∃ t, stripChars raw = ':' :: t := by
            cases hl : stripChars raw with
            | nil => rw [hl] at hcol; cases hcol
            | cons c t =>
              rw [hl] at hcol
              have hcc : c = ':' := by
                simpa using hcol
              exact ⟨t, by rw [hcc]⟩
          unfold lineStepND; dsimp only
          rw [ht, dataMarker_not_prefix_colon]
          simp
        rw [if_pos hcol, ih st hrest, hcore, hstep]
      · rw [if_neg hcol]
        by_cases hpre : dataMarker.isPrefixOf (stripChars raw) = true
        · rw [if_pos hpre]
          have hnd2 : ¬ ((stripChars raw).drop 6 = doneChars) := by
            intro heq
            simp [isDoneDataLine, hpre, heq] at hraw
          rw [if_neg hnd2]
          cases hd : decode ((stripChars raw).drop 6) with
          | none =>
            have hstep : lineStepND decode st raw = st := by
              unfold lineStepND; dsimp only
              rw [if_pos hpre, hd]
            rw [ih st hrest, hcore, hstep]
          | some obj =>
            have hstep : lineStepND decode st raw = processDataObj st obj := by
              unfold lineStepND; dsimp only
              rw [if_pos hpre, hd]
            rw [hcore, hstep]
            exact ih (processDataObj st obj) hrest
        · rw [if_neg hpre]
          have hstep : lineStepND decode st raw = st := by
            unfold lineStepND; dsimp only
            rw [if_neg hpre]
          rw [ih st hrest, hcore, hstep]

/-- Once the sentinel line is in the list of buffered complete lines, the
lines after it make no difference to the accumulation state the consumption
loop produces: the loop breaks at the sentinel. -/
lemma processLineList_stopDone (decode : List Char → Option ChunkObj) :
    ∀ (xs : List (List Char)) (st : StreamState) (ys : List (List Char)),
      (processLineList decode st (xs ++ doneLineChars :: ys)).1
        = (processLineList decode st (xs ++ [doneLineChars])).1 := by
  intro xs
  induction xs with
  | nil => intro st ys; rfl
  | cons x xs' ih =>
    intro st ys
    simp only [List.cons_append, processLineList]
    by_cases he : (stripChars x).isEmpty
    · simp only [if_pos he]; exact ih st ys
    · simp only [if_neg he]
      by_cases hcol : (stripChars x).head? = some ':'
      · simp only [if_pos hcol]; exact ih st ys
      · simp only [if_neg hcol]
        by_cases hpre : dataMarker.isPrefixOf (stripChars x) = true
        · simp only [if_pos hpre]
          by_cases hdone : (stripChars x).drop 6 = doneChars
          · simp only [if_pos hdone]
          · simp only [if_neg hdone]
            cases hd : decode ((stripChars x).drop 6) with
            | none => exact ih st ys
            | some obj => exact ih (processDataObj st obj) ys
        · simp only [if_neg hpre]; exact ih st ys

/-- Rejoining no lines is just the partial tail. -/
lemma rejoinLines_nil (p : List Char) : rejoinLines [] p = p := rfl

/-- Rejoining a first line prepends it with its newline. -/
lemma rejoinLines_cons (l : List Char) (ls : List (List Char)) (p : List Char) :
    rejoinLines (l :: ls) p = l ++ '\n' :: rejoinLines ls p := by
  simp [rejoinLines, List.append_assoc]

/-- Splitting a newline-free line followed by a newline peels it off. -/
lemma splitLines_line_append (l rest : List Char) (hl : '\n' ∉ l) :
    splitLines (l ++ '\n' :: rest)
      = (l :: (splitLines rest).1, (splitLines rest).2) := by
  induction l with
  | nil =>
    rcases h : splitLines rest with ⟨ls, p⟩
    simp [splitLines, h]
  | cons c t ih =>
    have hc : ¬ c = '\n' := fun hh => hl (hh ▸ List.mem_cons_self c t)
    have ht : '\n' ∉ t := fun hh => hl (List.mem_cons_of_mem c hh)
    have iht := ih ht
    simp [splitLines, List.cons_append, iht, hc]

/-- Splitting rejoined lines recovers them, provided no line or tail smuggles
in a newline of its own. -/
lemma splitLines_rejoin : ∀ (ls : List (List Char)) (p : List Char),
    (∀ l ∈ ls, '\n' ∉ l) → '\n' ∉ p →
    splitLines (rejoinLines ls p) = (ls, p) := by
  intro ls
  induction ls with
  | nil => intro p _ hp; exact splitLines_no_newline p hp
  | cons l t ih =>
    intro p hls hp
    rw [rejoinLines_cons,
      splitLines_line_append l _ (hls l (List.mem_cons_self _ _)),
      ih p (fun x hx => hls x (List.mem_cons_of_mem _ hx)) hp]

/-- Reduction of one non-empty chunk whose complete lines are
sentinel-free. -/
lemma processChunk_nonempty (decode : List Char → Option ChunkObj)
    (st : StreamState) (c : List Char) (hc : ¬ c.isEmpty = true)
    (L1 : List (List Char)) (P1 : List Char)
    (hsp : splitLines (st.buffer ++ c) = (L1, P1))
    (hnd : ∀ raw ∈ L1, isDoneDataLine raw = false) :
    processChunk decode st c
      = { coreFold decode { st with buffer := [] } L1 with buffer := P1 } := by
  unfold processChunk
  rw [if_neg hc, hsp]
  dsimp only
  rw [processLineList_noDone decode L1 _ hnd]
  rfl

/-- Folding the whole chunk list when every complete line of the stream is
sentinel-free: the run performs the line fold over all complete lines and
retains the trailing partial line. -/
lemma runChunks_noDone (decode : List Char → Option ChunkObj) :
    ∀ (chunks : List (List Char)) (st : StreamState),
      (∀ raw ∈ (splitLines (st.buffer ++ chunks.flatten)).1,
        isDoneDataLine raw = false) →
      '\n' ∉ st.buffer →
      chunks.foldl (processChunk decode) st
        = { coreFold decode { st with buffer := [] }
              (splitLines (st.buffer ++ chunks.flatten)).1 with
            buffer := (splitLines (st.buffer ++ chunks.flatten)).2 } := by
  intro chunks
  induction chunks with
  | nil =>
    intro st _ hb
    rw [List.foldl_nil, List.flatten_nil, List.append_nil,
      splitLines_no_newline st.buffer hb]
    rfl
  | cons c rest ih =>
    intro st hnd hb
    rw [List.foldl_cons]
    by_cases hce : c.isEmpty = true
    · have hcnil : c = [] := List.isEmpty_iff.mp hce
      subst hcnil
      rw [show processChunk decode st [] = st from rfl]
      have hflat : (([] : List Char) :: rest).flatten = rest.flatten := by simp
      rw [hflat] at hnd ⊢
      exact ih st hnd hb
    · rcases hsp : splitLines (st.buffer ++ c) with ⟨L1, P1⟩
      have htot : splitLines (st.buffer ++ (c :: rest).flatten)
          = (L1 ++ (splitLines (P1 ++ rest.flatten)).1,
             (splitLines (P1 ++ rest.flatten)).2) := by
        have h1 : st.buffer ++ (c :: rest).flatten
            = (st.buffer ++ c) ++ rest.flatten := by
          simp [List.flatten_cons, List.append_assoc]
        rw [h1, splitLines_append, hsp]
      have hndL1 : ∀ raw ∈ L1, isDoneDataLine raw = false := by
        intro raw hr
        apply hnd
        rw [htot]
        exact List.mem_append_left _ hr
      rw [processChunk_nonempty decode st c hce L1 P1 hsp hndL1]
      have hb2 : '\n' ∉ P1 := by
        have hpn := splitLines_partial_no_newline (st.buffer ++ c)
        rw [hsp] at hpn
        exact hpn
      have hnd2 : ∀ raw ∈
          (splitLines (({ coreFold decode { st with buffer := [] } L1 with
            buffer := P1 } : StreamState).buffer ++ rest.flatten)).1,
          isDoneDataLine raw = false := by
        intro raw hr
        apply hnd
        rw [htot]
        exact List.mem_append_right _ hr
      rw [ih _ hnd2 hb2]
      have hbufnil : ({ { coreFold decode { st with buffer := [] } L1 with
            buffer := P1 } with buffer := ([] : List Char) } : StreamState)
          = coreFold decode { st with buffer := [] } L1 := by
        have hb0 : (coreFold decode { st with buffer := [] } L1).buffer
            = [] := by rw [coreFold_buffer]
        conv_rhs => rw [show coreFold decode { st with buffer := [] } L1
          = { coreFold decode { st with buffer := [] } L1 with
              buffer := (coreFold decode { st with buffer := [] } L1).buffer }
          from rfl, hb0]
      rw [show ({ coreFold decode { st with buffer := [] } L1 with
            buffer := P1 } : StreamState).buffer = P1 from rfl]
      rw [hbufnil, htot]
      rw [coreFold_append]

/-- Reconstruction reads only the accumulation fields, never the buffer. -/
lemma reconstructResponse_buffer (m : String) (st : StreamState)
    (b : List Char) :
    reconstructResponse m { st with buffer := b }
      = reconstructResponse m st := rfl

/-! ## Claim C6 (streaming reconstruction) -/

/-- **C6.** For every stream whose data lines never carry the terminal
sentinel (so the accumulation loop runs to the end of the received chunks)
and whose carried finish reasons are non-empty strings: the reconstructed
response's content is the in-order concatenation of all content deltas, the
reasoning deltas are accumulated separately into the reasoning buffer, and
the reconstructed finish reason is the last finish reason carried by any
chunk (with the default `"stop"` when none is carried). -/
theorem C6_streaming_reconstruction (decode : List Char → Option ChunkObj)
    (chunks : List (List Char)) (model : String)
    (hnd : ∀ d ∈ dataPayloads chunks, d ≠ doneChars)
    (hfr : ∀ fr ∈ finishReasons decode chunks, fr ≠ "") :
    (reconstructResponse model (runStream decode chunks)).content
        = strConcat (contentDeltas decode chunks) ∧
    (runStream decode chunks).accumulated_reasoning
        = strConcat (reasoningDeltas decode chunks) ∧
    (reconstructResponse model (runStream decode chunks)).finish_reason
        = match lastElem (finishReasons decode chunks) with
          | some fr => fr
          | none => "stop" := by
  have hndl : ∀ raw ∈ (splitLines chunks.flatten).1,
      isDoneDataLine raw = false := by
    intro raw hr
    cases hb : isDoneDataLine raw with
    | false => rfl
    | true =>
      exfalso
      have hb' := hb
      unfold isDoneDataLine at hb'
      simp only [Bool.and_eq_true, decide_eq_true_eq] at hb'
      have hpl : linePayload raw = some doneChars := by
        unfold linePayload
        dsimp only
        rw [if_pos hb'.1, hb'.2]
      have hmem : doneChars ∈ dataPayloads chunks := by
        unfold dataPayloads
        exact List.mem_filterMap.mpr ⟨raw, hr, hpl⟩
      exact hnd _ hmem rfl
  have hrun : runStream decode chunks
      = { coreFold decode initStreamState (splitLines chunks.flatten).1 with
          buffer := (splitLines chunks.flatten).2 } := by
    have h := runChunks_noDone decode chunks initStreamState hndl
      (by simp [initStreamState])
    exact h
  have hconv : (splitLines chunks.flatten).1.filterMap (lineFinish decode)
      = finishReasons decode chunks := by
    have h1 : lineFinish decode
        = fun raw => ((linePayload raw).bind (fun d =>
            (lineChoice decode d).bind fun c => c.finish_reason)).bind
            (fun fr => if fr = "" then none else some fr) :=
      funext (lineFinish_eq decode)
    rw [h1]
    rw [filterMap_truthy_eq ((splitLines chunks.flatten).1)
      (fun raw => (linePayload raw).bind (fun d =>
        (lineChoice decode d).bind fun c => c.finish_reason))]
    · unfold finishReasons dataPayloads
      rw [List.filterMap_filterMap]
    · intro a ha fr hfr'
      apply hfr
      unfold finishReasons dataPayloads
      rw [List.filterMap_filterMap]
      exact List.mem_filterMap.mpr ⟨a, ha, hfr'⟩
  refine ⟨?_, ?_, ?_⟩
  · show (runStream decode chunks).accumulated_content = _
    rw [hrun]
    show (coreFold decode initStreamState
        (splitLines chunks.flatten).1).accumulated_content = _
    rw [coreFold_content]
    rw [show initStreamState.accumulated_content = "" from rfl,
      String.empty_append]
    rw [show lineContentDelta decode
        = fun raw => ((linePayload raw).bind (fun d =>
            (lineChoice decode d).bind fun c => c.delta.content)).getD ""
        from rfl]
    rw [strConcat_map_getD ((splitLines chunks.flatten).1)
      (fun raw => (linePayload raw).bind (fun d =>
        (lineChoice decode d).bind fun c => c.delta.content))]
    unfold contentDeltas dataPayloads
    rw [List.filterMap_filterMap]
  · rw [hrun]
    show (coreFold decode initStreamState
        (splitLines chunks.flatten).1).accumulated_reasoning = _
    rw [coreFold_reasoning]
    rw [show initStreamState.accumulated_reasoning = "" from rfl,
      String.empty_append]
    rw [show lineReasoningDelta decode
        = fun raw => ((linePayload raw).bind (fun d =>
            (lineChoice decode d).bind fun c => c.delta.reasoning)).getD ""
        from rfl]
    rw [strConcat_map_getD ((splitLines chunks.flatten).1)
      (fun raw => (linePayload raw).bind (fun d =>
        (lineChoice decode d).bind fun c => c.delta.reasoning))]
    unfold reasoningDeltas dataPayloads
    rw [List.filterMap_filterMap]
  · show orElseStr (runStream decode chunks).finish_reason "stop" = _
    rw [hrun]
    show orElseStr (coreFold decode initStreamState
        (splitLines chunks.flatten).1).finish_reason "stop" = _
    rw [coreFold_finish, hconv]
    cases hlast : lastElem (finishReasons decode chunks) with
    | none => rfl
    | some fr =>
      have hne : fr ≠ "" := hfr fr (lastElem_mem _ fr hlast)
      simp [orElseStr, hne]

/-- Witness for C6 at the claim's own example: chunks carrying the deltas
`"Hello"` and `" world"`, with finish reason `"stop"` on the last one,
reconstruct to content `"Hello world"` with finish reason `"stop"`. -/
theorem C6_streaming_reconstruction_witness :
    (reconstructResponse "test/model" (runStream exampleDecode
        ["data: h\n".toList, "data: w\n".toList])).content = "Hello world" ∧
    (reconstructResponse "test/model" (runStream exampleDecode
        ["data: h\n".toList, "data: w\n".toList])).finish_reason = "stop" := by
  have h := C6_streaming_reconstruction exampleDecode
      ["data: h\n".toList, "data: w\n".toList] "test/model"
      (by decide) (by decide)
  exact ⟨h.1.trans (by decide), h.2.2.trans (by decide)⟩

/-! ## Claim C8 (sentinel ends the stream) -/

/-- **C8 counterexample.** The claim fails as stated: the `break` on the
sentinel only exits the buffered line-consumption loop, not the chunk loop.
With the sentinel in one chunk and a further data chunk arriving afterwards,
the later data line still contributes content: the accumulated content is
`"X"`, not `""`. -/
theorem C8_counterexample :
    (runStream exampleDecode
        ["data: [DONE]\n".toList, "data: x\n".toList]).accumulated_content
      = "X" := by decide

/-- A rejoined non-empty line list is a non-empty chunk. -/
lemma rejoinLines_cons_ne_nil (l : List Char) (ls : List (List Char))
    (p : List Char) :
    ¬ (rejoinLines (l :: ls) p).isEmpty = true := by
  rw [rejoinLines_cons]
  cases l with
  | nil => simp
  | cons c t => simp

/-- **C8 amended.** Within the chunk in which the sentinel arrives, the
engine stops consuming the buffered lines: if no further chunk follows (the
normal SSE shape — the server closes the stream after `[DONE]`), data lines
after the sentinel contribute nothing — the reconstructed response over the
single chunk holding lines `ls1 ++ [DONE] ++ ls2` plus a trailing partial
line equals the one over `ls1 ++ [DONE]` alone.  (If further chunks do
arrive, consumption resumes and post-sentinel data lines do contribute — the
counterexample.) -/
theorem C8_sentinel_scope (decode : List Char → Option ChunkObj)
    (ls1 ls2 : List (List Char)) (p : List Char) (model : String)
    (h1 : ∀ l ∈ ls1, '\n' ∉ l) (h2 : ∀ l ∈ ls2, '\n' ∉ l) (hp : '\n' ∉ p) :
    reconstructResponse model
        (runStream decode [rejoinLines (ls1 ++ doneLineChars :: ls2) p])
      = reconstructResponse model
        (runStream decode [rejoinLines (ls1 ++ [doneLineChars]) []]) := by
  have hdl : '\n' ∉ doneLineChars := by decide
  have hall1 : ∀ l ∈ ls1 ++ doneLineChars :: ls2, '\n' ∉ l := by
    intro l hl
    rcases List.mem_append.mp hl with h | h
    · exact h1 l h
    · rcases List.mem_cons.mp h with rfl | h
      · exact hdl
      · exact h2 l h
  have hall2 : ∀ l ∈ ls1 ++ [doneLineChars], '\n' ∉ l := by
    intro l hl
    rcases List.mem_append.mp hl with h | h
    · exact h1 l h
    · rcases List.mem_cons.mp h with rfl | h
      · exact hdl
      · cases h
  have hne1 : ¬ (rejoinLines (ls1 ++ doneLineChars :: ls2) p).isEmpty
      = true := by
    cases ls1 with
    | nil => exact rejoinLines_cons_ne_nil _ _ _
    | cons a t => exact rejoinLines_cons_ne_nil _ _ _
  have hne2 : ¬ (rejoinLines (ls1 ++ [doneLineChars]) []).isEmpty = true := by
    cases ls1 with
    | nil => exact rejoinLines_cons_ne_nil _ _ _
    | cons a t => exact rejoinLines_cons_ne_nil _ _ _
  have hs1 : splitLines (initStreamState.buffer
        ++ rejoinLines (ls1 ++ doneLineChars :: ls2) p)
      = (ls1 ++ doneLineChars :: ls2, p) := by
    rw [show initStreamState.buffer
        ++ rejoinLines (ls1 ++ doneLineChars :: ls2) p
        = rejoinLines (ls1 ++ doneLineChars :: ls2) p from rfl]
    exact splitLines_rejoin _ _ hall1 hp
  have hs2 : splitLines (initStreamState.buffer
        ++ rejoinLines (ls1 ++ [doneLineChars]) [])
      = (ls1 ++ [doneLineChars], []) := by
    rw [show initStreamState.buffer
        ++ rejoinLines (ls1 ++ [doneLineChars]) []
        = rejoinLines (ls1 ++ [doneLineChars]) [] from rfl]
    exact splitLines_rejoin _ _ hall2 (by simp)
  unfold runStream
  rw [List.foldl_cons, List.foldl_nil, List.foldl_cons, List.foldl_nil]
  unfold processChunk
  rw [if_neg hne1, if_neg hne2, hs1, hs2]
  dsimp only
  rcases hA : processLineList decode
      { initStreamState with buffer := [] }
      (ls1 ++ doneLineChars :: ls2) with ⟨stA, leftA⟩
  rcases hB : processLineList decode
      { initStreamState with buffer := [] }
      (ls1 ++ [doneLineChars]) with ⟨stB, leftB⟩
  dsimp only
  rw [reconstructResponse_buffer, reconstructResponse_buffer]
  have hcore : stA = stB := by
    have hA1 : (processLineList decode { initStreamState with buffer := [] }
        (ls1 ++ doneLineChars :: ls2)).1 = stA := by rw [hA]
    have hB1 : (processLineList decode { initStreamState with buffer := [] }
        (ls1 ++ [doneLineChars])).1 = stB := by rw [hB]
    rw [← hA1, ← hB1, processLineList_stopDone]
  rw [hcore]
  exact (reconstructResponse_buffer model stB (rejoinLines leftB [])).symm

/-- Witness for C8 amended: a single chunk carrying the sentinel followed by
a decodable data line reconstructs identically to the chunk carrying the
sentinel alone. -/
theorem C8_sentinel_scope_witness :
    reconstructResponse "m" (runStream exampleDecode
        [rejoinLines (["data: h".toList] ++ doneLineChars
          :: ["data: x".toList]) []])
      = reconstructResponse "m" (runStream exampleDecode
        [rejoinLines (["data: h".toList] ++ [doneLineChars]) []]) :=
  C8_sentinel_scope exampleDecode ["data: h".toList] ["data: x".toList] [] "m"
    (by decide) (by decide) (by decide)

end OpenSCADBench
